import Mathlib

/-!
Verification of the SPTPS session engine (src/sptps.c) against its
natural-language specification.  The C code is shallowly embedded:
bytes are `Nat` values below 256, byte buffers are `List Nat`,
32-bit counters are `Nat` reduced modulo 2^32 at the points where the C
code performs 32-bit arithmetic, and the external cryptographic
primitives (PRF, ECDH, AEAD ciphers) are parameters of the definitions,
matching the spec's statement that they are external collaborators.
-/

namespace Sptps


/-- 32-bit truncation, applied wherever the C code computes in `uint32_t`. -/
def u32 (n : Nat) : Nat := n % 4294967296

/-- `Modelled from the spec:` record type 128 is `SPTPS_HANDSHAKE`
(`sptps.h` is not part of the sources; the spec fixes the value). -/
def SPTPS_HANDSHAKE : Nat := 128

/-- `CIPHER_KEYLEN` from sptps.c. -/
def CIPHER_KEYLEN : Nat := 64

/-! ## Key material derivation (`generate_key_material`, sptps.c lines 398-428)

The PRF is external; it is passed as a parameter
`prf : List Nat → List Nat → Nat → List Nat` taking the secret, the seed
and the requested output length. -/

/-- The 13 bytes of the ASCII string "key expansion" copied into the seed. -/
def keyExpansion : List Nat :=
  [107, 101, 121, 32, 101, 120, 112, 97, 110, 115, 105, 111, 110]

/-- The PRF seed built by `generate_key_material`:
`memcpy(seed, "key expansion", 13)`, then 32 bytes from `mykex + 1` and
32 bytes from `hiskex + 1` (initiator's KEX bytes first), then the label.
Note the source copies from offset 1 of each stored KEX frame. -/
def keyMaterialSeed (initiator : Bool) (label mykex hiskex : List Nat) :
    List Nat :=
  keyExpansion ++
    (if initiator then
      ((mykex.drop 1).take 32) ++ ((hiskex.drop 1).take 32)
    else
      ((hiskex.drop 1).take 32) ++ ((mykex.drop 1).take 32)) ++
    label

/-- `generate_key_material`: key = PRF(shared, seed, 2 * CIPHER_KEYLEN). -/
def generate_key_material (prf : List Nat → List Nat → Nat → List Nat)
    (initiator : Bool) (label mykex hiskex shared : List Nat) : List Nat :=
  prf shared (keyMaterialSeed initiator label mykex hiskex)
    (2 * CIPHER_KEYLEN)

/-- Modelled from the spec (for comparison with the source definition
`keyMaterialSeed`): the seed as §4.4 of the spec describes it, with each
nonce being the 32-byte nonce field of the KEX frame, which `send_kex`
places at byte offsets 4..35 of the frame
(`[version:1][pref:1][suites:2][nonce:32][ecdh_pub]`). -/
def specKeyMaterialSeed (initiator : Bool) (label mykex hiskex : List Nat) :
    List Nat :=
  keyExpansion ++
    (if initiator then
      ((mykex.drop 4).take 32) ++ ((hiskex.drop 4).take 32)
    else
      ((hiskex.drop 4).take 32) ++ ((mykex.drop 4).take 32)) ++
    label

/-! ## Cipher suite negotiation (`select_cipher_suite`, sptps.c lines 454-477,
and the mask handling of `receive_kex`, lines 490-498) -/

/-- Fuel-bounded version of the fallback loop of `select_cipher_suite`:
`selection = 0; while(!(mask & 1)) { selection++; mask >>= 1; }`.
A fuel of `mask` always suffices for a nonzero mask. -/
def lowestSetBitAux : Nat → Nat → Nat
  | 0, _ => 0
  | fuel + 1, mask =>
    if mask &&& 1 ≠ 0 then 0 else 1 + lowestSetBitAux fuel (mask / 2)

/-- The fallback loop of `select_cipher_suite`.  On a zero mask the C
loop never terminates; the model returns 0 there, and every statement
about it assumes a nonzero mask. -/
def lowestSetBit (mask : Nat) : Nat := lowestSetBitAux mask mask

/-- `select_cipher_suite(mask, pref1, pref2)`: start from sentinel 255,
take `pref1` if its bit is set in `mask`, then take `pref2` instead when
`pref2 < selection` and its bit is set, else fall back to the lowest set
bit of `mask`. -/
def select_cipher_suite (mask pref1 pref2 : Nat) : Nat :=
  let selection := if mask &&& (1 <<< pref1) ≠ 0 then pref1 else 255
  let selection :=
    if pref2 < selection ∧ mask &&& (1 <<< pref2) ≠ 0 then pref2
    else selection
  if selection = 255 then lowestSetBit mask else selection

/-- The suite-negotiation part of `receive_kex` (lines 490-498):
intersect the peer's advertised mask with ours, fail when empty,
otherwise run `select_cipher_suite` with our preferred suite and the low
4 bits of the peer's preference byte. -/
def negotiateSuite (cipher_suites preferred_suite : Nat)
    (peerPrefByte peerSuites : Nat) : Option Nat :=
  let suites := peerSuites &&& cipher_suites
  if suites = 0 then none
  else some (select_cipher_suite suites preferred_suite (peerPrefByte &&& 15))

/-- A trivial PRF instance (constant output of the requested length),
used to witness theorems whose statements quantify over the PRF. -/
def constPrf : List Nat → List Nat → Nat → List Nat :=
  fun _ _ n => List.replicate n 0

/-- Concrete KEX frames used to exercise `generate_key_material`
(4-byte header, 32-byte nonce, 32-byte ECDH key). -/
def kexFrameA : List Nat := List.range 68

/-- A second concrete KEX frame, disjoint from `kexFrameA` bytewise. -/
def kexFrameB : List Nat := (List.range 68).map (fun x => x + 100)

/-! ## Replay window (`sptps_check_seqno`, sptps.c lines 650-712)

The session fields touched by the checker are gathered in `ReplayState`.
`late` is the circular bitmap of `replaywin` bytes; a set bit means the
corresponding past sequence number has not been received yet. -/

/-- The replay-protection fields of `sptps_t`. -/
structure ReplayState where
  replaywin : Nat
  inseqno : Nat
  late : List Nat
  farfuture : Nat
  received : Nat
deriving Repr, DecidableEq

/-- Which of the three return points of `sptps_check_seqno` fired:
acceptance (return true), the far-future rejection, or the
late-or-replayed rejection. -/
inductive SeqCheck where
  | accepted
  | farFuture
  | lateOrReplay
deriving Repr, DecidableEq

/-- `b &= ~(1 << k)` on a byte. -/
def clearByteBit (b k : Nat) : Nat := b &&& (255 ^^^ (1 <<< k))

/-- `b |= 1 << k` on a byte. -/
def setByteBit (b k : Nat) : Nat := b ||| (1 <<< k)

/-- `late[(seqno / 8) % replaywin] &= ~(1 << seqno % 8)`. -/
def clearBitFor (l : List Nat) (W seqno : Nat) : List Nat :=
  l.set ((seqno / 8) % W)
    (clearByteBit (l.getD ((seqno / 8) % W) 0) (seqno % 8))

/-- `late[(i / 8) % replaywin] |= 1 << i % 8`. -/
def setBitFor (l : List Nat) (W seqno : Nat) : List Nat :=
  l.set ((seqno / 8) % W)
    (setByteBit (l.getD ((seqno / 8) % W) 0) (seqno % 8))

/-- `late[(seqno / 8) % replaywin] & (1 << seqno % 8)` as a Bool. -/
def testBitFor (l : List Nat) (W seqno : Nat) : Bool :=
  (l.getD ((seqno / 8) % W) 0) &&& (1 <<< (seqno % 8)) ≠ 0

/-- The loop `for(i = inseqno; i < seqno; i++) late[...] |= ...`,
written with an explicit count `seqno - inseqno`. -/
def markLateRange (W : Nat) (l : List Nat) (start : Nat) : Nat → List Nat
  | 0 => l
  | n + 1 => markLateRange W (setBitFor l W start) (start + 1) n

/-- The accepting tail of `sptps_check_seqno`: with `update_state`,
clear the packet's bit and reset `farfuture` (only when a window is
configured), advance `inseqno` when the packet is not older than it,
and update `received`, which resets when `inseqno` wrapped to zero. -/
def acceptSeqno (s : ReplayState) (seqno : Nat) (update : Bool) :
    SeqCheck × ReplayState :=
  if update then
    let s1 := if s.replaywin ≠ 0 then
        { s with late := clearBitFor s.late s.replaywin seqno,
                 farfuture := 0 }
      else s
    let s2 := if seqno ≥ s1.inseqno then
        { s1 with inseqno := u32 (seqno + 1) }
      else s1
    let s3 := if s2.inseqno = 0 then { s2 with received := 0 }
      else { s2 with received := u32 (s2.received + 1) }
    (SeqCheck.accepted, s3)
  else (SeqCheck.accepted, s)

/-- `sptps_check_seqno`, translated branch by branch.  All `uint32_t`
arithmetic of the C code is reproduced with `u32`. -/
def sptps_check_seqno (s : ReplayState) (seqno : Nat) (update : Bool) :
    SeqCheck × ReplayState :=
  if s.replaywin ≠ 0 ∧ seqno ≠ s.inseqno then
    if seqno ≥ u32 (s.inseqno + s.replaywin * 8) then
      let ff := s.farfuture < s.replaywin >>> 2
      let s1 := if update then { s with farfuture := u32 (s.farfuture + 1) }
        else s
      if ff then (SeqCheck.farFuture, s1)
      else
        let s2 := if update then
            { s1 with late := List.replicate s1.replaywin 255 }
          else s1
        acceptSeqno s2 seqno update
    else if seqno < s.inseqno then
      if (s.inseqno ≥ u32 (s.replaywin * 8) ∧
            seqno < s.inseqno - u32 (s.replaywin * 8)) ∨
          testBitFor s.late s.replaywin seqno = false then
        (SeqCheck.lateOrReplay, s)
      else acceptSeqno s seqno update
    else
      let s1 := if update then
          { s with late :=
              markLateRange s.replaywin s.late s.inseqno (seqno - s.inseqno) }
        else s
      acceptSeqno s1 seqno update
  else acceptSeqno s seqno update

/-- The replay fields as `sptps_start` initializes them
(`inseqno = 0`, `late` zeroed, counters zero). -/
def replayInit (W : Nat) : ReplayState :=
  ⟨W, 0, List.replicate W 0, 0, 0⟩

/-- Present a list of sequence numbers one after the other with
`update_state = true`, keeping the resulting state each time. -/
def runSeqnos (s : ReplayState) : List Nat → ReplayState
  | [] => s
  | q :: qs => runSeqnos (sptps_check_seqno s q true).2 qs

/-- Reachable replay states in datagram mode, paired with the list of
sequence numbers accepted so far (most recent first): starting from the
initial state, each presented seqno moves to the state returned by
`sptps_check_seqno` and is recorded exactly when it was accepted. -/
inductive ReachAcc : Nat → ReplayState → List Nat → Prop where
  | init (W : Nat) : ReachAcc W (replayInit W) []
  | stepAcc (W : Nat) (s : ReplayState) (A : List Nat) (q : Nat) :
      ReachAcc W s A →
      (sptps_check_seqno s q true).1 = SeqCheck.accepted →
      ReachAcc W (sptps_check_seqno s q true).2 (q :: A)
  | stepRej (W : Nat) (s : ReplayState) (A : List Nat) (q : Nat) :
      ReachAcc W s A →
      (sptps_check_seqno s q true).1 ≠ SeqCheck.accepted →
      ReachAcc W (sptps_check_seqno s q true).2 A

/-! ### Helper lemmas about the late bitmap -/

/-! ### Branch equations for `sptps_check_seqno` -/

/-- The replay-window invariant: every accepted sequence number is below
`inseqno` and is either too old for the window (so the age check rejects
it) or has its bitmap bit cleared (so the bitmap check rejects it).
`inseqno` is zero or the successor of an accepted seqno. -/
def ReplayInv (W : Nat) (s : ReplayState) (A : List Nat) : Prop :=
  s.replaywin = W ∧
  s.late.length = W ∧
  (s.inseqno = 0 ∨ ∃ q0, q0 ∈ A ∧ s.inseqno = q0 + 1) ∧
  ∀ q ∈ A, q < s.inseqno ∧
    (W * 8 ≤ s.inseqno ∧ q < s.inseqno - W * 8 ∨
      testBitFor s.late W q = false)

/-- The replay state after presenting seqno 2^32 - 1 nine times to a
fresh window of 16 bytes: four far-future rejections, one accepted wipe
that wraps `inseqno` to 0, then four more far-future rejections. -/
def c5state : ReplayState :=
  runSeqnos (replayInit 16) (List.replicate 9 4294967295)

/-! ## Stream-mode record layer
(`send_record_priv`, sptps.c lines 300-326, and the stream part of
`sptps_receive_data`, lines 802-902)

The AEAD cipher pair is external: `enc seqno plaintext` returns
ciphertext plus 16-byte tag, `dec seqno ciphertext` returns the
plaintext or `none` on authentication failure.  `receive_handshake` is
abstracted by a handler returning the updated session state and at most
one `receive_record` delivery, matching all its paths. -/

/-- `Modelled from the spec:` `SPTPS_HEADER` = 3 (`sptps.h` is not in
the sources; §4.2 of the spec fixes the stream header size). -/
def SPTPS_HEADER : Nat := 3

/-- `Modelled from the spec:` `SPTPS_OVERHEAD` = 19 = 2 + 1 + 16. -/
def SPTPS_OVERHEAD : Nat := 19

/-- The stream-mode receive-side session fields: handshake state (only
zero/nonzero observable here), inbound keying flag, inbound sequence
counter, the parsed record length, and the reassembly buffer contents
(the first `buflen` bytes of `inbuf`). -/
structure StreamState where
  hstate : Nat
  instate : Bool
  inseqno : Nat
  reclen : Nat
  buf : List Nat
deriving Repr, DecidableEq

/-- Abstraction of `receive_handshake` as seen from the record layer:
it may mutate the session and delivers at most one record
(`receive_record(HANDSHAKE, NULL, 0)` on completion), or fails. -/
def HSHandler : Type :=
  StreamState → List Nat → Option (StreamState × Option (Nat × List Nat))

/-- The frame `send_record_priv` hands to `send_data` in stream mode
once `outstate` is set: 2-byte little-endian length, then the AEAD
encryption of `type || payload` under the record's sequence number. -/
def send_record_priv (enc : Nat → List Nat → List Nat)
    (seqno type : Nat) (data : List Nat) : List Nat :=
  [data.length % 256, data.length / 256 % 256] ++ enc seqno ([type] ++ data)

/-- The frames of successive `sptps_send_record` calls, concatenated;
`outseqno` increments by one per record with 32-bit wraparound. -/
def sendFrames (enc : Nat → List Nat → List Nat) (seq0 : Nat) :
    List (Nat × List Nat) → List Nat
  | [] => []
  | (t, d) :: rest =>
    send_record_priv enc seq0 t d ++ sendFrames enc (u32 (seq0 + 1)) rest

/-- The type-byte dispatch at the end of record processing: application
records require `instate` and are delivered via `receive_record`,
handshake records go to `receive_handshake`, anything else is an error;
in all successful cases `buflen` is then reset to zero. -/
def dispatchRecord (hs : HSHandler) (s1 : StreamState) (pt : List Nat)
    (rl : Nat) : Option (StreamState × List (Nat × List Nat)) :=
  let type := pt.getD 0 0
  let payload := (pt.drop 1).take rl
  if type < SPTPS_HANDSHAKE then
    if !s1.instate then none
    else some ({ s1 with buf := [] }, [(type, payload)])
  else if type = SPTPS_HANDSHAKE then
    match hs s1 payload with
    | none => none
    | some (s2, d) => some ({ s2 with buf := [] }, d.toList)
  else none

/-- The second half of stream-mode `sptps_receive_data`: read up to the
end of the record, and when the record is complete, bump `inseqno`,
decrypt when keyed, then dispatch on the type byte and reset the
buffer. -/
def streamPhase2 (dec : Nat → List Nat → Option (List Nat)) (hs : HSHandler)
    (s : StreamState) (input : List Nat) :
    Option (Nat × StreamState × List (Nat × List Nat)) :=
  let target := s.reclen + (if s.instate then SPTPS_OVERHEAD else SPTPS_HEADER)
  let toread := min (target - s.buf.length) input.length
  let buf := s.buf ++ input.take toread
  if buf.length < target then some (toread, { s with buf := buf }, [])
  else
    let s1 : StreamState := { s with buf := buf, inseqno := u32 (s.inseqno + 1) }
    match (if s.instate then dec s.inseqno (buf.drop 2)
           else some ((buf.drop 2).take (s.reclen + 1))) with
    | none => none
    | some pt =>
      match dispatchRecord hs s1 pt s.reclen with
      | none => none
      | some (s2, ds) => some (toread, s2, ds)

/-- Stream-mode `sptps_receive_data` (one call): reject dead sessions,
first accumulate the 2 length bytes (exiting early when they are
incomplete or no input remains), then run the record phase.  Returns
the bytes consumed, the new state and the records delivered, or `none`
where the C code returns an error. -/
def sptps_receive_data (dec : Nat → List Nat → Option (List Nat))
    (hs : HSHandler) (s : StreamState) (input : List Nat) :
    Option (Nat × StreamState × List (Nat × List Nat)) :=
  if s.hstate = 0 then none
  else if s.buf.length < 2 then
    let toread := min (2 - s.buf.length) input.length
    let buf1 := s.buf ++ input.take toread
    if buf1.length < 2 then some (toread, { s with buf := buf1 }, [])
    else
      let reclen := buf1.getD 0 0 + 256 * buf1.getD 1 0
      let s1 : StreamState := { s with buf := buf1, reclen := reclen }
      let rest := input.drop toread
      if rest.length = 0 then some (toread, s1, [])
      else
        match streamPhase2 dec hs s1 rest with
        | none => none
        | some (c2, s2, ds) => some (toread + c2, s2, ds)
  else streamPhase2 dec hs s input

/-- Pump one chunk through `sptps_receive_data`, calling again with the
unconsumed tail until the chunk is exhausted; `fuel` bounds the number
of calls (one byte is consumed per call at minimum, so `chunk.length`
suffices). -/
def feedChunkF (dec : Nat → List Nat → Option (List Nat)) (hs : HSHandler) :
    Nat → StreamState → List Nat →
    Option (StreamState × List (Nat × List Nat))
  | _, s, [] => some (s, [])
  | 0, _, _ => none
  | fuel + 1, s, chunk =>
    match sptps_receive_data dec hs s chunk with
    | none => none
    | some (c, s1, ds) =>
      if c = 0 then none
      else
        match feedChunkF dec hs fuel s1 (chunk.drop c) with
        | none => none
        | some (s2, ds2) => some (s2, ds ++ ds2)

/-- Feed one chunk to the receiver, re-calling with the unconsumed
tail. -/
def feedChunk (dec : Nat → List Nat → Option (List Nat)) (hs : HSHandler)
    (s : StreamState) (chunk : List Nat) :
    Option (StreamState × List (Nat × List Nat)) :=
  feedChunkF dec hs chunk.length s chunk

/-- Feed a list of chunks in order, accumulating deliveries. -/
def feedChunks (dec : Nat → List Nat → Option (List Nat)) (hs : HSHandler) :
    StreamState → List (List Nat) →
    Option (StreamState × List (Nat × List Nat))
  | s, [] => some (s, [])
  | s, c :: cs =>
    match feedChunk dec hs s c with
    | none => none
    | some (s1, ds) =>
      match feedChunks dec hs s1 cs with
      | none => none
      | some (s2, ds2) => some (s2, ds ++ ds2)

/-- A cipher stand-in that always fails to decrypt. -/
def noDec : Nat → List Nat → Option (List Nat) := fun _ _ => none

/-- A handshake handler that delivers the record payload unchanged and
leaves the state alone, used for concrete evaluations. -/
def echoHS : HSHandler := fun s d => some (s, some (SPTPS_HANDSHAKE, d))

/-! ### The stream round trip

`midState` describes the receiver after it has consumed exactly `j`
bytes of the current record's frame: the buffer holds those bytes and
`reclen` is still the previous (stale) value until the two length bytes
are in.  `cfgStream` is the part of the sender's byte stream not yet
fed. -/

/-- Receiver state `j` bytes into frame `f`, with inbound counter `q`
and the pre-existing `reclen` value `stale`. -/
def midState (hst q stale : Nat) (f : List Nat) (j : Nat) : StreamState :=
  ⟨hst, true, q,
    if j < 2 then stale else f.getD 0 0 + 256 * f.getD 1 0,
    f.take j⟩

/-- The bytes still to be fed: the rest of the current frame, then the
frames of the remaining records. -/
def cfgStream (enc : Nat → List Nat → List Nat) (q : Nat) :
    List (Nat × List Nat) → Nat → List Nat
  | [], _ => []
  | (t, d) :: rs, j =>
    (send_record_priv enc q t d).drop j ++ sendFrames enc (u32 (q + 1)) rs

/-- The receiver state matching `cfgStream`: mid-frame for a nonempty
pending list, clean for an empty one. -/
def cfgState (hst stale : Nat) (enc : Nat → List Nat → List Nat) (q : Nat) :
    List (Nat × List Nat) → Nat → StreamState
  | [], _ => ⟨hst, true, q, stale, []⟩
  | (t, d) :: _, j => midState hst q stale (send_record_priv enc q t d) j

/-- Length of the head record's frame (0 for no pending records). -/
def headFrameLen : List (Nat × List Nat) → Nat
  | [] => 0
  | (_, d) :: _ => d.length + 19

/-- A concrete cipher pair for witnesses: append 16 zero "tag" bytes. -/
def padEnc : Nat → List Nat → List Nat :=
  fun _ m => m ++ List.replicate 16 0

/-- Inverse of `padEnc`: strip the 16 trailing bytes. -/
def padDec : Nat → List Nat → Option (List Nat) :=
  fun _ c => some (c.take (c.length - 16))

/-- The records used by the C3 witness. -/
def c3recs : List (Nat × List Nat) := [(0, [1, 2, 3]), (5, [])]

/-- The session fields read and written by the datagram receive path:
the inbound keying flag `instate` and the replay-protection fields. -/
structure DgramState where
  instate : Bool
  replay : ReplayState
deriving Repr, DecidableEq

/-- `memcpy(&seqno, data, 4)` on a little-endian machine: the 32-bit
value of the first four bytes. -/
def le32 (data : List Nat) : Nat :=
  data.getD 0 0 + 256 * data.getD 1 0 + 65536 * data.getD 2 0 +
    16777216 * data.getD 3 0

/-- Abstract `receive_handshake` for the datagram path: it may alter
the session and report success or failure. -/
def DgramHS : Type := DgramState → List Nat → Bool × DgramState

/-- `sptps_receive_data_datagram`: result flag, session state after the
call (an error return leaves any mutations made before it in place, as
in the C code), and the application records handed to `receive_record`
(modelled as always accepted). -/
def sptps_receive_data_datagram (dec : Nat → List Nat → Option (List Nat))
    (hs : DgramHS) (s : DgramState) (data : List Nat) :
    Bool × DgramState × List (Nat × List Nat) :=
  if data.length < (if s.instate then 21 else 5) then (false, s, [])
  else
    let seqno := le32 data
    let rest := data.drop 4
    if s.instate = false then
      if seqno ≠ s.replay.inseqno then (false, s, [])
      else
        let s1 : DgramState :=
          { s with replay := { s.replay with inseqno := u32 (seqno + 1) } }
        if rest.getD 0 0 ≠ SPTPS_HANDSHAKE then (false, s1, [])
        else
          let r := hs s1 (rest.drop 1)
          (r.1, r.2, [])
    else
      match dec seqno rest with
      | none => (false, s, [])
      | some pt =>
        let chk := sptps_check_seqno s.replay seqno true
        let s1 : DgramState := { s with replay := chk.2 }
        if chk.1 ≠ SeqCheck.accepted then (false, s1, [])
        else
          let t := pt.getD 0 0
          let payload := pt.drop 1
          if t < SPTPS_HANDSHAKE then
            if s1.instate = false then (false, s1, [])
            else (true, s1, [(t, payload)])
          else if t = SPTPS_HANDSHAKE then
            let r := hs s1 payload
            (r.1, r.2, [])
          else (false, s1, [])

/-- A trivial concrete handshake handler for witnesses. -/
def dgEcho : DgramHS := fun s _ => (true, s)

/-- The four values of the `state` field that `receive_handshake`
handles (`SPTPS_KEX`, `SPTPS_SIG`, `SPTPS_ACK`, `SPTPS_SECONDARY_KEX`). -/
inductive HState where
  | kex
  | sig
  | ack
  | secondaryKex
deriving Repr, DecidableEq

/-- The handshake-relevant session fields: the role, the `state` tag,
the two keying flags, and whether the `key`, `mykex` and `hiskex`
buffers are currently allocated (non-null). -/
structure HSession where
  initiator : Bool
  state : HState
  instate : Bool
  outstate : Bool
  key : Bool
  mykex : Bool
  hiskex : Bool
deriving Repr, DecidableEq

/-- The session right after a successful `sptps_start`: everything
zeroed, then `state = SPTPS_KEX` and `send_kex` allocates `mykex`. -/
def hsInit (i : Bool) : HSession :=
  ⟨i, HState.kex, false, false, false, true, false⟩

/-- One successful `receive_handshake` call (or `sptps_force_kex`),
with its effect on the modelled fields and the guards the code checks
on them.  `recvSigFirst` folds in the `receive_ack(NULL, 0)` the code
performs inline when `outstate` was still false: `generate_key_material`
allocates `key`, `receive_ack` then frees it and sets `instate`. -/
inductive HStep : HSession → HSession → Prop where
  | recvKex (s : HSession) (h : s.state = HState.kex)
      (hk : s.hiskex = false) :
      HStep s { s with hiskex := true, state := HState.sig }
  | recvKexSecondary (s : HSession) (h : s.state = HState.secondaryKex)
      (hm : s.mykex = false) (hk : s.hiskex = false) :
      HStep s { s with mykex := true, hiskex := true, state := HState.sig }
  | recvSigOut (s : HSession) (h : s.state = HState.sig)
      (ho : s.outstate = true) :
      HStep s { s with key := true, mykex := false, hiskex := false,
                       state := HState.ack }
  | recvSigFirst (s : HSession) (h : s.state = HState.sig)
      (ho : s.outstate = false) :
      HStep s { s with key := false, mykex := false, hiskex := false,
                       outstate := true, instate := true,
                       state := HState.secondaryKex }
  | recvAck (s : HSession) (h : s.state = HState.ack) :
      HStep s { s with key := false, instate := true,
                       state := HState.secondaryKex }
  | forceKex (s : HSession) (h : s.state = HState.secondaryKex)
      (ho : s.outstate = true) (hm : s.mykex = false) :
      HStep s { s with mykex := true, state := HState.kex }

/-- Session states reachable from `sptps_start` by successful
handshake steps. -/
inductive HReach : HSession → Prop where
  | init (i : Bool) : HReach (hsInit i)
  | step (s t : HSession) : HReach s → HStep s t → HReach t

theorem lowestSetBitAux_is_least (fuel : Nat) :
    ∀ mask, mask ≠ 0 → mask ≤ fuel →
      mask.testBit (lowestSetBitAux fuel mask) = true ∧
        ∀ j < lowestSetBitAux fuel mask, mask.testBit j = false := by
  induction fuel with
  | zero => intro mask hm hle; omega
  | succ f ih =>
    intro m hm hle
    rw [lowestSetBitAux]
    have hand := Nat.and_one_is_mod m
    by_cases hlow : m &&& 1 ≠ 0
    · rw [if_pos hlow]
      refine ⟨?_, fun j hj => absurd hj (by omega)⟩
      have hmod : m % 2 = 1 := by omega
      simp [Nat.testBit_zero, hmod]
    · rw [if_neg hlow]
      have hmod : m % 2 = 0 := by omega
      have hm2 : m / 2 ≠ 0 := by omega
      obtain ⟨ih1, ih2⟩ := ih (m / 2) hm2 (by omega)
      constructor
      · rw [Nat.add_comm]
        show m.testBit (Nat.succ (lowestSetBitAux f (m / 2))) = true
        rw [Nat.testBit_succ]
        exact ih1
      · intro j hj
        match j with
        | 0 => simp [Nat.testBit_zero, hmod]
        | Nat.succ j2 =>
          rw [Nat.testBit_succ]
          exact ih2 j2 (by omega)

theorem lowestSetBit_is_least (mask : Nat) (h : mask ≠ 0) :
    mask.testBit (lowestSetBit mask) = true ∧
      ∀ j < lowestSetBit mask, mask.testBit j = false :=
  lowestSetBitAux_is_least mask mask h (Nat.le_refl mask)

/-- Bit test as the C code writes it, equivalent to `Nat.testBit`. -/
theorem and_shift_ne_zero (mask p : Nat) :
    (mask &&& (1 <<< p) ≠ 0) ↔ mask.testBit p = true := by
  rw [Nat.shiftLeft_eq, Nat.one_mul, Nat.and_two_pow]
  cases h : mask.testBit p
  · simp
  · have h2 := Nat.two_pow_pos p
    simp only [Bool.toNat_true, Nat.one_mul, ne_eq, eq_self_iff_true,
      iff_true]
    omega

/-- C1: honest sessions with complementary roles, the same label and
agreeing ECDH shared secrets derive identical 128-byte key material.
The initiator stores its own KEX in `mykex` and the peer's in `hiskex`;
the responder stores them the other way around, and both place the
initiator's KEX bytes first in the PRF seed, so the two PRF inputs are
identical and the two outputs coincide; the output length is
2 * CIPHER_KEYLEN = 128 bytes. -/
theorem C1_key_material_agreement
    (prf : List Nat → List Nat → Nat → List Nat)
    (hprf : ∀ k s n, (prf k s n).length = n)
    (label kexInit kexResp zInit zResp : List Nat)
    (hecdh : zInit = zResp) :
    generate_key_material prf true label kexInit kexResp zInit =
      generate_key_material prf false label kexResp kexInit zResp ∧
    (generate_key_material prf true label kexInit kexResp zInit).length
      = 128 := by
  subst hecdh
  refine ⟨?_, ?_⟩
  · simp [generate_key_material, keyMaterialSeed]
  · simpa [generate_key_material] using
      hprf zInit (keyMaterialSeed true label kexInit kexResp)
        (2 * CIPHER_KEYLEN)

/-- Witness for C1 at concrete inputs. -/
theorem C1_key_material_agreement_witness :
    generate_key_material constPrf true [7] kexFrameA kexFrameB [1, 2] =
      generate_key_material constPrf false [7] kexFrameB kexFrameA [1, 2] ∧
    (generate_key_material constPrf true [7] kexFrameA kexFrameB
        [1, 2]).length = 128 :=
  C1_key_material_agreement constPrf
    (fun _ _ n => by simp [constPrf]) [7] kexFrameA kexFrameB [1, 2] [1, 2]
    rfl

set_option maxRecDepth 4096 in
/-- C2: evaluating the seed construction of `generate_key_material` at
concrete KEX frames shows that the 32 bytes entering the seed are frame
bytes 1..32 (the preferred-suite byte, the two suites-bitmask bytes and
only the first 29 bytes of the nonce), not the nonce field at bytes
4..35 that `send_kex` wrote and that the specification (and the
function's own comment) call for. -/
theorem C2_seed_uses_offset_one :
    keyMaterialSeed true [] kexFrameA kexFrameB =
      keyExpansion ++ ((kexFrameA.drop 1).take 32 ++
        (kexFrameB.drop 1).take 32) ∧
    keyMaterialSeed true [] kexFrameA kexFrameB ≠
      specKeyMaterialSeed true [] kexFrameA kexFrameB := by
  constructor
  · simp [keyMaterialSeed]
  · decide

/-- C4 counterexample: with both suites 0 and 1 in the intersection,
local preference 1 and peer preference 0, the code selects suite 0
(the peer's lower-numbered preference), not the available local
preference 1 as the claim states. -/
theorem C4_counterexample :
    negotiateSuite 3 1 0 3 = some 0 ∧ negotiateSuite 3 1 0 3 ≠ some 1 := by
  constructor <;> decide

/-- Characterization of `select_cipher_suite` for in-range preferences:
it returns the lower-numbered of the two preferences whose bit is in the
mask (the first preference winning ties), falling back to the lowest set
bit of the mask when neither preference bit is set; the fallback is the
least set bit. -/
theorem select_cipher_suite_spec (mask pref1 pref2 : Nat)
    (hm : mask ≠ 0) (h1 : pref1 < 16) (h2 : pref2 < 16) :
    select_cipher_suite mask pref1 pref2 =
      (if mask.testBit pref1 ∧ (pref1 ≤ pref2 ∨ mask.testBit pref2 = false)
        then pref1
        else if mask.testBit pref2 then pref2
        else lowestSetBit mask) ∧
    (mask.testBit pref1 = false → mask.testBit pref2 = false →
      mask.testBit (select_cipher_suite mask pref1 pref2) = true ∧
      ∀ j < select_cipher_suite mask pref1 pref2,
        mask.testBit j = false) := by
  have hsel : select_cipher_suite mask pref1 pref2 =
      (if mask.testBit pref1 ∧
          (pref1 ≤ pref2 ∨ mask.testBit pref2 = false)
        then pref1
        else if mask.testBit pref2 then pref2
        else lowestSetBit mask) := by
    cases hb1 : mask.testBit pref1 <;> cases hb2 : mask.testBit pref2 <;>
      simp [select_cipher_suite, and_shift_ne_zero, hb1, hb2] <;>
      first
        | rfl
        | omega
        | (split_ifs <;> first | rfl | omega)
  refine ⟨hsel, ?_⟩
  intro hb1 hb2
  rw [hsel]
  simp only [hb1, hb2, Bool.false_eq_true, false_and, if_false]
  exact lowestSetBit_is_least mask hm

/-- C4 (amended): negotiation intersects the two advertised masks and
fails exactly when the intersection is empty; otherwise the selected
suite is the lower-numbered of the two preferences (local, peer's low 4
bits) whose bit lies in the intersection — the local preference winning
ties but NOT taking precedence when the peer's available preference is
lower-numbered — and when neither preference bit is in the intersection
it is the lowest-numbered set bit of the intersection. -/
theorem C4_suite_negotiation (cs ps pb pm : Nat) (hps : ps < 16) :
    (negotiateSuite cs ps pb pm = none ↔ pm &&& cs = 0) ∧
    (pm &&& cs ≠ 0 →
      negotiateSuite cs ps pb pm =
        some (select_cipher_suite (pm &&& cs) ps (pb &&& 15)) ∧
      select_cipher_suite (pm &&& cs) ps (pb &&& 15) =
        (if (pm &&& cs).testBit ps ∧
            (ps ≤ pb &&& 15 ∨ (pm &&& cs).testBit (pb &&& 15) = false)
          then ps
          else if (pm &&& cs).testBit (pb &&& 15) then pb &&& 15
          else lowestSetBit (pm &&& cs)) ∧
      ((pm &&& cs).testBit ps = false →
        (pm &&& cs).testBit (pb &&& 15) = false →
        (pm &&& cs).testBit
          (select_cipher_suite (pm &&& cs) ps (pb &&& 15)) = true ∧
        ∀ j < select_cipher_suite (pm &&& cs) ps (pb &&& 15),
          (pm &&& cs).testBit j = false)) := by
  constructor
  · unfold negotiateSuite
    by_cases h : pm &&& cs = 0 <;> simp [h]
  · intro hne
    have h15 : pb &&& 15 < 16 :=
      Nat.lt_succ_of_le (Nat.and_le_right)
    obtain ⟨hs1, hs2⟩ :=
      select_cipher_suite_spec (pm &&& cs) ps (pb &&& 15) hne hps h15
    refine ⟨?_, hs1, hs2⟩
    unfold negotiateSuite
    simp [hne]

/-- Witness for C4: local mask 6 with preference 0 (bit not in mask),
peer mask 6 with preference byte 5 (bit 5 not in mask): negotiation
succeeds with suite 1, the lowest set bit of the intersection. -/
theorem C4_suite_negotiation_witness : negotiateSuite 6 0 5 6 = some 1 := by
  rw [((C4_suite_negotiation 6 0 5 6 (by decide)).2 (by decide)).1]
  decide

/-- C6: a seqno at or beyond `inseqno + 8 * replaywin` is rejected as
far-future while the `farfuture` counter is below `replaywin / 4`, the
counter incrementing and nothing else changing; once the counter is no
longer below the threshold the packet is accepted, the late bitmap is
wiped to all-0xFF (the accepted seqno's own bit then cleared, as on
every acceptance), `farfuture` resets and `inseqno` advances to
`seqno + 1`.  Concretely with `replaywin = 16` from the initial state,
four packets with seqno 10000 are rejected far-future and the fifth is
accepted, leaving `inseqno = 10001`. -/
theorem C6_far_future :
    (∀ (s : ReplayState) (q : Nat),
      s.replaywin ≠ 0 →
      s.inseqno + s.replaywin * 8 < 4294967296 →
      s.inseqno + s.replaywin * 8 ≤ q →
      ((s.farfuture < s.replaywin >>> 2 →
        sptps_check_seqno s q true =
          (SeqCheck.farFuture,
            { s with farfuture := u32 (s.farfuture + 1) })) ∧
       (¬ s.farfuture < s.replaywin >>> 2 →
        (sptps_check_seqno s q true).1 = SeqCheck.accepted ∧
        (sptps_check_seqno s q true).2.inseqno = u32 (q + 1) ∧
        (sptps_check_seqno s q true).2.late =
          clearBitFor (List.replicate s.replaywin 255) s.replaywin q ∧
        (sptps_check_seqno s q true).2.farfuture = 0))) ∧
    (∀ i < 4,
      (sptps_check_seqno (runSeqnos (replayInit 16) (List.replicate i 10000))
        10000 true).1 = SeqCheck.farFuture) ∧
    sptps_check_seqno (runSeqnos (replayInit 16) (List.replicate 4 10000))
        10000 true =
      (SeqCheck.accepted,
        ⟨16, 10001,
          [255, 255, 254, 255, 255, 255, 255, 255, 255, 255, 255, 255,
            255, 255, 255, 255], 0, 1⟩) := by
  refine ⟨?_, by decide, by decide⟩
  intro s q hW hnw hfar
  have hne : q ≠ s.inseqno := by omega
  have hu : u32 (s.inseqno + s.replaywin * 8) = s.inseqno + s.replaywin * 8 :=
    Nat.mod_eq_of_lt hnw
  have hcond : s.replaywin ≠ 0 ∧ q ≠ s.inseqno := ⟨hW, hne⟩
  have hge : q ≥ s.inseqno := by omega
  constructor
  · intro hff
    simp only [sptps_check_seqno, hu, if_pos hcond, if_pos hfar, if_pos hff,
      if_pos rfl, ge_iff_le, if_true]
  · intro hff
    simp only [sptps_check_seqno, hu, if_pos hfar, if_neg hff,
      acceptSeqno, ge_iff_le, if_true, hW, hne, ne_eq, not_false_iff,
      true_and, and_true, if_pos hge]
    exact ⟨by split <;> rfl, by split <;> rfl, by split <;> rfl⟩

/-- Witness for C6 at a concrete input: from the initial state with
`replaywin = 16`, seqno 10000 is far in the future and is rejected with
only the `farfuture` counter bumped to 1. -/
theorem C6_far_future_witness :
    sptps_check_seqno (replayInit 16) 10000 true =
      (SeqCheck.farFuture, ⟨16, 0, List.replicate 16 0, 1, 0⟩) :=
  (C6_far_future.1 (replayInit 16) 10000 (by decide) (by decide)
    (by decide)).1 (by decide)

theorem land_shift_eq_zero_iff (x k : Nat) :
    x &&& (1 <<< k) = 0 ↔ x.testBit k = false := by
  rw [Nat.shiftLeft_eq, Nat.one_mul, Nat.and_two_pow]
  cases h : x.testBit k
  · simp
  · have h2 := Nat.two_pow_pos k
    simp only [Bool.toNat_true, Nat.one_mul, Bool.true_eq_false, iff_false]
    omega

theorem testBitFor_eq_testBit (l : List Nat) (W q : Nat) :
    testBitFor l W q = (l.getD ((q / 8) % W) 0).testBit (q % 8) := by
  unfold testBitFor
  by_cases h : (l.getD ((q / 8) % W) 0) &&& (1 <<< (q % 8)) = 0
  · rw [(land_shift_eq_zero_iff _ _).mp h, h]
    rfl
  · have ht : (l.getD ((q / 8) % W) 0).testBit (q % 8) = true := by
      cases hb : (l.getD ((q / 8) % W) 0).testBit (q % 8)
      · exact absurd ((land_shift_eq_zero_iff _ _).mpr hb) h
      · rfl
    rw [ht]
    exact decide_eq_true h

theorem clearByteBit_testBit (b k2 k : Nat) (hk : k < 8) :
    (clearByteBit b k2).testBit k = if k = k2 then false else b.testBit k := by
  unfold clearByteBit
  rw [Nat.shiftLeft_eq, Nat.one_mul]
  have h255 : (255 : Nat) = 2 ^ 8 - 1 := by norm_num
  rw [Nat.testBit_and, Nat.testBit_xor, h255, Nat.testBit_two_pow_sub_one,
    Nat.testBit_two_pow]
  by_cases he : k = k2
  · subst he
    simp [hk]
  · have hne : k2 ≠ k := fun hh => he hh.symm
    simp [he, hk, hne]

theorem setByteBit_testBit (b k2 k : Nat) :
    (setByteBit b k2).testBit k = (b.testBit k || decide (k2 = k)) := by
  unfold setByteBit
  rw [Nat.shiftLeft_eq, Nat.one_mul, Nat.testBit_or, Nat.testBit_two_pow]

theorem getD_set_self (l : List Nat) (i v : Nat) (h : i < l.length) :
    (l.set i v).getD i 0 = v := by
  rw [List.getD_eq_getElem?_getD, List.getElem?_set_self h]
  rfl

theorem getD_set_other (l : List Nat) (i j v : Nat) (h : i ≠ j) :
    (l.set i v).getD j 0 = l.getD j 0 := by
  rw [List.getD_eq_getElem?_getD, List.getElem?_set_ne h,
    List.getD_eq_getElem?_getD]

theorem testBitFor_clearBitFor_self (l : List Nat) (W q : Nat)
    (hlt : (q / 8) % W < l.length) :
    testBitFor (clearBitFor l W q) W q = false := by
  rw [testBitFor_eq_testBit]
  unfold clearBitFor
  rw [getD_set_self l _ _ hlt, clearByteBit_testBit _ _ _ (Nat.mod_lt q (by omega))]
  simp

theorem testBitFor_clearBitFor_mono (l : List Nat) (W q q2 : Nat)
    (h : testBitFor l W q = false) :
    testBitFor (clearBitFor l W q2) W q = false := by
  rw [testBitFor_eq_testBit] at h ⊢
  unfold clearBitFor
  by_cases hj : (q2 / 8) % W = (q / 8) % W
  · by_cases hlen : (q2 / 8) % W < l.length
    · rw [← hj] at h ⊢
      rw [getD_set_self l _ _ hlen,
        clearByteBit_testBit _ _ _ (Nat.mod_lt q (by omega))]
      split_ifs with he
      · rfl
      · exact h
    · rw [List.set_eq_of_length_le (Nat.le_of_not_lt hlen)]
      exact h
  · rw [getD_set_other l _ _ _ hj]
    exact h

theorem testBitFor_setBitFor_other (l : List Nat) (W q q2 : Nat)
    (hne : ¬((q / 8) % W = (q2 / 8) % W ∧ q % 8 = q2 % 8)) :
    testBitFor (setBitFor l W q2) W q = testBitFor l W q := by
  rw [testBitFor_eq_testBit, testBitFor_eq_testBit]
  unfold setBitFor
  by_cases hj : (q2 / 8) % W = (q / 8) % W
  · have hk : q2 % 8 ≠ q % 8 := fun hh => hne ⟨hj.symm, hh.symm⟩
    by_cases hlen : (q2 / 8) % W < l.length
    · rw [← hj, getD_set_self l _ _ hlen, setByteBit_testBit]
      simp [hk]
    · rw [List.set_eq_of_length_le (Nat.le_of_not_lt hlen)]
  · rw [getD_set_other l _ _ _ hj]

theorem markLateRange_length (W : Nat) :
    ∀ (cnt start : Nat) (l : List Nat),
      (markLateRange W l start cnt).length = l.length := by
  intro cnt
  induction cnt with
  | zero => intro start l; rfl
  | succ n ih =>
    intro start l
    rw [markLateRange, ih]
    unfold setBitFor
    exact List.length_set ..

theorem testBitFor_markLateRange (W q : Nat) :
    ∀ (cnt start : Nat) (l : List Nat),
      (∀ i, start ≤ i → i < start + cnt →
        ¬((q / 8) % W = (i / 8) % W ∧ q % 8 = i % 8)) →
      testBitFor (markLateRange W l start cnt) W q = testBitFor l W q := by
  intro cnt
  induction cnt with
  | zero => intro start l _; rfl
  | succ n ih =>
    intro start l h
    rw [markLateRange, ih (start + 1) _ (fun i h1 h2 => h i (by omega) (by omega))]
    exact testBitFor_setBitFor_other l W q start (h start (Nat.le_refl _) (by omega))

theorem clearBitFor_length (l : List Nat) (W q : Nat) :
    (clearBitFor l W q).length = l.length := List.length_set ..

/-- Two sequence numbers share a (byte, bit) slot of the circular bitmap
exactly when they are congruent modulo `8 * W`. -/
theorem bitIndex_eq_iff (W a b : Nat) (hW : W ≠ 0) :
    ((a / 8) % W = (b / 8) % W ∧ a % 8 = b % 8) ↔
      a % (8 * W) = b % (8 * W) := by
  rw [Nat.mod_mul, Nat.mod_mul]
  constructor
  · rintro ⟨h1, h2⟩
    omega
  · intro h
    have ha : a % 8 < 8 := Nat.mod_lt a (by omega)
    have hb : b % 8 < 8 := Nat.mod_lt b (by omega)
    omega

theorem acceptSeqno_false (s : ReplayState) (q : Nat) :
    acceptSeqno s q false = (SeqCheck.accepted, s) := rfl

theorem acceptSeqno_fst (s : ReplayState) (q : Nat) :
    (acceptSeqno s q true).1 = SeqCheck.accepted := by
  simp only [acceptSeqno]
  split_ifs <;> rfl

theorem acceptSeqno_replaywin (s : ReplayState) (q : Nat) :
    (acceptSeqno s q true).2.replaywin = s.replaywin := by
  simp only [acceptSeqno]
  split_ifs <;> rfl

theorem acceptSeqno_late (s : ReplayState) (q : Nat) (hW : s.replaywin ≠ 0) :
    (acceptSeqno s q true).2.late = clearBitFor s.late s.replaywin q := by
  simp only [acceptSeqno, if_pos hW, if_true]
  split_ifs <;> rfl

theorem acceptSeqno_farfuture (s : ReplayState) (q : Nat)
    (hW : s.replaywin ≠ 0) :
    (acceptSeqno s q true).2.farfuture = 0 := by
  simp only [acceptSeqno, if_pos hW, if_true]
  split_ifs <;> rfl

theorem acceptSeqno_inseqno (s : ReplayState) (q : Nat) :
    (acceptSeqno s q true).2.inseqno =
      if s.inseqno ≤ q then u32 (q + 1) else s.inseqno := by
  simp only [acceptSeqno, ge_iff_le]
  split_ifs <;> rfl

theorem check_eq_base (s : ReplayState) (q : Nat) (u : Bool)
    (h : ¬(s.replaywin ≠ 0 ∧ q ≠ s.inseqno)) :
    sptps_check_seqno s q u = acceptSeqno s q u := by
  simp only [sptps_check_seqno]
  rw [if_neg h]

theorem check_eq_far_rej (s : ReplayState) (q : Nat)
    (h1 : s.replaywin ≠ 0 ∧ q ≠ s.inseqno)
    (h2 : q ≥ u32 (s.inseqno + s.replaywin * 8))
    (h3 : s.farfuture < s.replaywin >>> 2) :
    sptps_check_seqno s q true =
      (SeqCheck.farFuture, { s with farfuture := u32 (s.farfuture + 1) }) := by
  simp only [sptps_check_seqno]
  rw [if_pos h1, if_pos h2, if_pos h3]
  simp

theorem check_eq_far_acc (s : ReplayState) (q : Nat)
    (h1 : s.replaywin ≠ 0 ∧ q ≠ s.inseqno)
    (h2 : q ≥ u32 (s.inseqno + s.replaywin * 8))
    (h3 : ¬s.farfuture < s.replaywin >>> 2) :
    sptps_check_seqno s q true =
      acceptSeqno
        { s with farfuture := u32 (s.farfuture + 1),
                 late := List.replicate s.replaywin 255 } q true := by
  simp only [sptps_check_seqno]
  rw [if_pos h1, if_pos h2, if_neg h3]
  simp

theorem check_eq_late_rej (s : ReplayState) (q : Nat)
    (h1 : s.replaywin ≠ 0 ∧ q ≠ s.inseqno)
    (h2 : ¬q ≥ u32 (s.inseqno + s.replaywin * 8))
    (h3 : q < s.inseqno)
    (h4 : (s.inseqno ≥ u32 (s.replaywin * 8) ∧
            q < s.inseqno - u32 (s.replaywin * 8)) ∨
          testBitFor s.late s.replaywin q = false) :
    sptps_check_seqno s q true = (SeqCheck.lateOrReplay, s) := by
  simp only [sptps_check_seqno]
  rw [if_pos h1, if_neg h2, if_pos h3, if_pos h4]

theorem check_eq_late_acc (s : ReplayState) (q : Nat)
    (h1 : s.replaywin ≠ 0 ∧ q ≠ s.inseqno)
    (h2 : ¬q ≥ u32 (s.inseqno + s.replaywin * 8))
    (h3 : q < s.inseqno)
    (h4 : ¬((s.inseqno ≥ u32 (s.replaywin * 8) ∧
            q < s.inseqno - u32 (s.replaywin * 8)) ∨
          testBitFor s.late s.replaywin q = false)) :
    sptps_check_seqno s q true = acceptSeqno s q true := by
  simp only [sptps_check_seqno]
  rw [if_pos h1, if_neg h2, if_pos h3, if_neg h4]

theorem check_eq_ahead (s : ReplayState) (q : Nat)
    (h1 : s.replaywin ≠ 0 ∧ q ≠ s.inseqno)
    (h2 : ¬q ≥ u32 (s.inseqno + s.replaywin * 8))
    (h3 : ¬q < s.inseqno) :
    sptps_check_seqno s q true =
      acceptSeqno
        { s with late :=
            markLateRange s.replaywin s.late s.inseqno (q - s.inseqno) }
        q true := by
  simp only [sptps_check_seqno]
  rw [if_pos h1, if_neg h2, if_neg h3]
  simp

theorem inv_preserved (W : Nat) (hW : W ≠ 0) (hW8 : W * 8 < 4294967296)
    (s : ReplayState) (A : List Nat) (hInv : ReplayInv W s A)
    (hboundA : ∀ x ∈ A, x + W * 8 + 2 ≤ 4294967296) (q : Nat)
    (hq : (sptps_check_seqno s q true).1 = SeqCheck.accepted →
      q + W * 8 + 2 ≤ 4294967296) :
    ReplayInv W (sptps_check_seqno s q true).2
      (if (sptps_check_seqno s q true).1 = SeqCheck.accepted then q :: A
       else A) := by
  obtain ⟨hrw, hlen, horigin, hmem⟩ := hInv
  subst hrw
  have hIbound : s.inseqno + s.replaywin * 8 < 4294967296 := by
    rcases horigin with h0 | ⟨q0, hq0A, hq0⟩
    · omega
    · have := hboundA q0 hq0A
      omega
  have hu32far : u32 (s.inseqno + s.replaywin * 8) = s.inseqno + s.replaywin * 8 :=
    Nat.mod_eq_of_lt hIbound
  have huW8 : u32 (s.replaywin * 8) = s.replaywin * 8 := Nat.mod_eq_of_lt (by omega)
  by_cases hc1 : s.replaywin ≠ 0 ∧ q ≠ s.inseqno
  case neg =>
    -- q = inseqno: plain in-order acceptance
    have hqI : q = s.inseqno := by
      by_cases h : q = s.inseqno
      · exact h
      · exact absurd ⟨hW, h⟩ hc1
    rw [check_eq_base s q true hc1]
    have hacc := acceptSeqno_fst s q
    rw [if_pos hacc]
    have hqb := hq (by rw [check_eq_base s q true hc1]; exact hacc)
    have hins : (acceptSeqno s q true).2.inseqno = q + 1 := by
      rw [acceptSeqno_inseqno, if_pos (by omega), u32, Nat.mod_eq_of_lt (by omega)]
    refine ⟨acceptSeqno_replaywin s q, ?_, ?_, ?_⟩
    · rw [acceptSeqno_late s q hW, clearBitFor_length]
      exact hlen
    · exact Or.inr ⟨q, List.mem_cons_self q A, hins⟩
    · intro x hx
      rw [hins, acceptSeqno_late s q hW]
      rcases List.mem_cons.mp hx with hxq | hxA
      · subst hxq
        refine ⟨by omega, Or.inr ?_⟩
        have hidx : x / 8 % s.replaywin < s.late.length := by
          rw [hlen]
          exact Nat.mod_lt _ (by omega)
        exact testBitFor_clearBitFor_self s.late s.replaywin x hidx
      · obtain ⟨hlt, hdisj⟩ := hmem x hxA
        refine ⟨by omega, ?_⟩
        rcases hdisj with ⟨h1, h2⟩ | hbit
        · exact Or.inl ⟨by omega, by omega⟩
        · exact Or.inr (testBitFor_clearBitFor_mono s.late s.replaywin x q hbit)
  case pos =>
    by_cases hc2 : q ≥ u32 (s.inseqno + s.replaywin * 8)
    · by_cases hff : s.farfuture < s.replaywin >>> 2
      · -- far future, rejected: only farfuture changes
        rw [check_eq_far_rej s q hc1 hc2 hff]
        simp only [reduceCtorEq, if_neg]
        exact ⟨rfl, hlen, horigin, hmem⟩
      · -- far future, window wiped and packet accepted
        rw [check_eq_far_acc s q hc1 hc2 hff]
        set s2 : ReplayState :=
          { s with farfuture := u32 (s.farfuture + 1),
                   late := List.replicate s.replaywin 255 } with hs2
        have hacc := acceptSeqno_fst s2 q
        rw [if_pos hacc]
        have hqb : q + s.replaywin * 8 + 2 ≤ 4294967296 := by
          apply hq
          rw [check_eq_far_acc s q hc1 hc2 hff]
          exact hacc
        have hqge : s.inseqno + s.replaywin * 8 ≤ q := by
          rw [hu32far] at hc2
          exact hc2
        have hins : (acceptSeqno s2 q true).2.inseqno = q + 1 := by
          rw [acceptSeqno_inseqno, if_pos (by show s.inseqno ≤ q; omega),
            u32, Nat.mod_eq_of_lt (by omega)]
        refine ⟨acceptSeqno_replaywin s2 q, ?_, ?_, ?_⟩
        · rw [acceptSeqno_late s2 q hW, clearBitFor_length]
          exact List.length_replicate ..
        · exact Or.inr ⟨q, List.mem_cons_self q A, hins⟩
        · intro x hx
          rw [hins, acceptSeqno_late s2 q hW]
          rcases List.mem_cons.mp hx with hxq | hxA
          · subst hxq
            refine ⟨by omega, Or.inr ?_⟩
            apply testBitFor_clearBitFor_self
            simp only [hs2, List.length_replicate]
            exact Nat.mod_lt _ (by omega)
          · obtain ⟨hlt, _⟩ := hmem x hxA
            exact ⟨by omega, Or.inl ⟨by omega, by omega⟩⟩
    · by_cases hlt : q < s.inseqno
      · by_cases hrej : (s.inseqno ≥ u32 (s.replaywin * 8) ∧
            q < s.inseqno - u32 (s.replaywin * 8)) ∨
            testBitFor s.late s.replaywin q = false
        · -- late or replayed: rejected, state unchanged
          rw [check_eq_late_rej s q hc1 hc2 hlt hrej]
          simp only [reduceCtorEq, if_neg]
          exact ⟨rfl, hlen, horigin, hmem⟩
        · -- within the window and still outstanding: accepted late packet
          rw [check_eq_late_acc s q hc1 hc2 hlt hrej]
          have hacc := acceptSeqno_fst s q
          rw [if_pos hacc]
          have hins : (acceptSeqno s q true).2.inseqno = s.inseqno := by
            rw [acceptSeqno_inseqno, if_neg (by omega)]
          refine ⟨acceptSeqno_replaywin s q, ?_, ?_, ?_⟩
          · rw [acceptSeqno_late s q hW, clearBitFor_length]
            exact hlen
          · rw [hins]
            rcases horigin with h0 | ⟨q0, hq0A, hq0⟩
            · exact Or.inl h0
            · exact Or.inr ⟨q0, List.mem_cons_of_mem q hq0A, hq0⟩
          · intro x hx
            rw [hins, acceptSeqno_late s q hW]
            rcases List.mem_cons.mp hx with hxq | hxA
            · subst hxq
              refine ⟨hlt, Or.inr ?_⟩
              have hidx : x / 8 % s.replaywin < s.late.length := by
                rw [hlen]
                exact Nat.mod_lt _ (by omega)
              exact testBitFor_clearBitFor_self s.late s.replaywin x hidx
            · obtain ⟨hxlt, hdisj⟩ := hmem x hxA
              refine ⟨hxlt, ?_⟩
              rcases hdisj with hold | hbit
              · exact Or.inl hold
              · exact Or.inr (testBitFor_clearBitFor_mono s.late s.replaywin x q hbit)
      · -- ahead within the window: mark the skipped seqnos late, accept
        rw [check_eq_ahead s q hc1 hc2 hlt]
        set s1 : ReplayState :=
          { s with late :=
              markLateRange s.replaywin s.late s.inseqno (q - s.inseqno) } with hs1
        have hacc := acceptSeqno_fst s1 q
        rw [if_pos hacc]
        have hqlt : q < s.inseqno + s.replaywin * 8 := by
          rw [hu32far] at hc2
          omega
        have hqgt : s.inseqno < q := by
          rcases hc1 with ⟨_, hne⟩
          omega
        have hins : (acceptSeqno s1 q true).2.inseqno = q + 1 := by
          rw [acceptSeqno_inseqno, if_pos (by show s.inseqno ≤ q; omega),
            u32, Nat.mod_eq_of_lt (by omega)]
        refine ⟨acceptSeqno_replaywin s1 q, ?_, ?_, ?_⟩
        · rw [acceptSeqno_late s1 q hW, clearBitFor_length]
          show (markLateRange s.replaywin s.late s.inseqno (q - s.inseqno)).length = s.replaywin
          rw [markLateRange_length]
          exact hlen
        · exact Or.inr ⟨q, List.mem_cons_self q A, hins⟩
        · intro x hx
          rw [hins, acceptSeqno_late s1 q hW]
          rcases List.mem_cons.mp hx with hxq | hxA
          · subst hxq
            refine ⟨by omega, Or.inr ?_⟩
            apply testBitFor_clearBitFor_self
            simp only [hs1, markLateRange_length, hlen]
            exact Nat.mod_lt _ (by omega)
          · obtain ⟨hxlt, hdisj⟩ := hmem x hxA
            refine ⟨by omega, ?_⟩
            rcases hdisj with ⟨h1, h2⟩ | hbit
            · exact Or.inl ⟨by omega, by omega⟩
            · -- the bit of x was clear; either some freshly marked seqno
              -- shares its slot (then x has fallen out of the window), or
              -- the slot is untouched and the bit stays clear
              by_cases hex : ∃ i, s.inseqno ≤ i ∧ i < q ∧
                  (x / 8) % s.replaywin = (i / 8) % s.replaywin ∧ x % 8 = i % 8
              · obtain ⟨i, hi1, hi2, hieq⟩ := hex
                have hmod : x % (8 * s.replaywin) = i % (8 * s.replaywin) :=
                  (bitIndex_eq_iff s.replaywin x i hW).mp ⟨hieq.1, hieq.2⟩
                have hdvd : 8 * s.replaywin ∣ i - x :=
                  (Nat.modEq_iff_dvd' (by omega)).mp hmod
                have hge : 8 * s.replaywin ≤ i - x := by
                  apply Nat.le_of_dvd _ hdvd
                  omega
                exact Or.inl ⟨by omega, by omega⟩
              · push_neg at hex
                refine Or.inr (testBitFor_clearBitFor_mono _ s.replaywin x q ?_)
                show testBitFor (markLateRange s.replaywin s.late s.inseqno (q - s.inseqno)) s.replaywin x = false
                rw [testBitFor_markLateRange s.replaywin x (q - s.inseqno) s.inseqno s.late]
                · exact hbit
                · intro i h1 h2
                  rintro ⟨he1, he2⟩
                  have := hex i h1 (by omega)
                  exact this he1 he2

theorem reach_inv (W : Nat) (s : ReplayState) (A : List Nat)
    (h : ReachAcc W s A) :
    W ≠ 0 → W * 8 < 4294967296 →
    (∀ x ∈ A, x + W * 8 + 2 ≤ 4294967296) →
    ReplayInv W s A := by
  induction h with
  | init =>
    intro hW hW8 hbound
    refine ⟨rfl, List.length_replicate .., Or.inl rfl, ?_⟩
    intro x hx
    simp at hx
  | stepAcc s2 A2 q2 hr hacc ih =>
    intro hW hW8 hbound
    have hres := inv_preserved W hW hW8 s2 A2
      (ih hW hW8 (fun x hx => hbound x (List.mem_cons_of_mem q2 hx)))
      (fun x hx => hbound x (List.mem_cons_of_mem q2 hx))
      q2 (fun _ => hbound q2 (List.mem_cons_self q2 A2))
    rw [if_pos hacc] at hres
    exact hres
  | stepRej s2 A2 q2 hr hrej ih =>
    intro hW hW8 hbound
    have hres := inv_preserved W hW hW8 s2 A2 (ih hW hW8 hbound) hbound q2
      (fun hacc => absurd hacc hrej)
    rw [if_neg hrej] at hres
    exact hres

/-- C5 (amended): in datagram mode, for every reachable replay-window
state with a nonzero window whose accepted sequence numbers all stay
below 2^32 - 8 * replaywin - 2 (so that neither `inseqno` nor the
window-edge computation `inseqno + 8 * replaywin` wraps around 2^32),
re-presenting a previously accepted seqno is rejected through the
late-or-replay return: `sptps_check_seqno` returns false there and the
state, `inseqno` included, is completely unchanged, so the record is not
delivered.  Without the no-wrap bound the claim fails: accepting seqno
2^32 - 1 wraps `inseqno` to 0, after which the same seqno is first
rejected as far-future and eventually accepted again
(`C5_counterexample`). -/
theorem C5_replay_rejected (W : Nat) (s : ReplayState) (A : List Nat)
    (hreach : ReachAcc W s A) (hW : W ≠ 0) (hW8 : W * 8 < 4294967296)
    (hbound : ∀ x ∈ A, x + W * 8 + 2 ≤ 4294967296)
    (q : Nat) (hq : q ∈ A) :
    sptps_check_seqno s q true = (SeqCheck.lateOrReplay, s) := by
  obtain ⟨hrw, hlen, horigin, hmem⟩ := reach_inv W s A hreach hW hW8 hbound
  subst hrw
  obtain ⟨hlt, hdisj⟩ := hmem q hq
  have hIbound : s.inseqno + s.replaywin * 8 < 4294967296 := by
    rcases horigin with h0 | ⟨q0, hq0A, hq0⟩
    · omega
    · have := hbound q0 hq0A
      omega
  apply check_eq_late_rej
  · exact ⟨hW, by omega⟩
  · rw [u32, Nat.mod_eq_of_lt hIbound]
    omega
  · exact hlt
  · rw [u32, Nat.mod_eq_of_lt (show s.replaywin * 8 < 4294967296 by omega)]
    exact hdisj

/-- Witness for the amended C5: with window 16, accept seqno 0, then
present seqno 0 again: it is rejected late-or-replay with no state
change. -/
theorem C5_replay_rejected_witness :
    sptps_check_seqno (runSeqnos (replayInit 16) [0]) 0 true =
      (SeqCheck.lateOrReplay, runSeqnos (replayInit 16) [0]) :=
  C5_replay_rejected 16 (runSeqnos (replayInit 16) [0]) [0]
    (ReachAcc.stepAcc 16 (replayInit 16) [] 0 (ReachAcc.init 16) (by decide))
    (by decide) (by decide) (by decide) 0 (by decide)

/-- C5 counterexample: `c5state` is reachable with accepted-seqno list
`[4294967295]`, yet presenting the already accepted seqno 4294967295
once more is ACCEPTED (the tenth presentation after nine), not rejected
as late-or-replay, because acceptance of 2^32 - 1 wrapped `inseqno` to
zero and the far-future path then wipes and accepts the replay. -/
theorem C5_counterexample :
    ReachAcc 16 c5state [4294967295] ∧
    (sptps_check_seqno c5state 4294967295 true).1 = SeqCheck.accepted := by
  constructor
  · have h0 := ReachAcc.init 16
    have h1 := ReachAcc.stepRej 16 _ [] 4294967295 h0 (by decide)
    have h2 := ReachAcc.stepRej 16 _ [] 4294967295 h1 (by decide)
    have h3 := ReachAcc.stepRej 16 _ [] 4294967295 h2 (by decide)
    have h4 := ReachAcc.stepRej 16 _ [] 4294967295 h3 (by decide)
    have h5 := ReachAcc.stepAcc 16 _ [] 4294967295 h4 (by decide)
    have h6 := ReachAcc.stepRej 16 _ [4294967295] 4294967295 h5 (by decide)
    have h7 := ReachAcc.stepRej 16 _ [4294967295] 4294967295 h6 (by decide)
    have h8 := ReachAcc.stepRej 16 _ [4294967295] 4294967295 h7 (by decide)
    have h9 := ReachAcc.stepRej 16 _ [4294967295] 4294967295 h8 (by decide)
    exact h9
  · decide

theorem dispatchRecord_shape (hs : HSHandler) (s1 : StreamState)
    (pt : List Nat) (rl : Nat) (s2 : StreamState)
    (ds : List (Nat × List Nat))
    (h : dispatchRecord hs s1 pt rl = some (s2, ds)) :
    ds.length ≤ 1 ∧ s2.buf = [] := by
  simp only [dispatchRecord] at h
  by_cases h1 : pt.getD 0 0 < SPTPS_HANDSHAKE
  · rw [if_pos h1] at h
    by_cases h2 : !s1.instate
    · rw [if_pos h2] at h
      exact Option.noConfusion h
    · rw [if_neg h2] at h
      simp only [Option.some.injEq, Prod.mk.injEq] at h
      obtain ⟨hs2, hds⟩ := h
      subst hs2
      subst hds
      exact ⟨by simp, rfl⟩
  · rw [if_neg h1] at h
    by_cases h2 : pt.getD 0 0 = SPTPS_HANDSHAKE
    · rw [if_pos h2] at h
      rcases heq : hs s1 ((pt.drop 1).take rl) with _ | ⟨s3, d⟩
      · rw [heq] at h
        exact Option.noConfusion h
      · rw [heq] at h
        simp only [Option.some.injEq, Prod.mk.injEq] at h
        obtain ⟨hs2, hds⟩ := h
        subst hs2
        subst hds
        refine ⟨?_, rfl⟩
        cases d <;> simp
    · rw [if_neg h2] at h
      exact Option.noConfusion h

theorem streamPhase2_shape (dec : Nat → List Nat → Option (List Nat))
    (hs : HSHandler) (s : StreamState) (input : List Nat)
    (c : Nat) (s1 : StreamState) (ds : List (Nat × List Nat))
    (h : streamPhase2 dec hs s input = some (c, s1, ds)) :
    ds.length ≤ 1 ∧ (ds ≠ [] → s1.buf = []) ∧ c ≤ input.length := by
  simp only [streamPhase2] at h
  repeat' split at h
  all_goals try exact Option.noConfusion h
  all_goals try
    (simp only [Option.some.injEq, Prod.mk.injEq] at h
     obtain ⟨hc, hs1, hds⟩ := h
     subst hc
     subst hs1
     subst hds
     exact ⟨by simp, by simp, Nat.min_le_right _ _⟩)
  all_goals
    (rename_i hdisp
     simp only [Option.some.injEq, Prod.mk.injEq] at h
     obtain ⟨hc, hs1, hds⟩ := h
     subst hc
     subst hs1
     subst hds
     obtain ⟨hd1, hd2⟩ := dispatchRecord_shape _ _ _ _ _ _ hdisp
     exact ⟨hd1, fun _ => hd2, Nat.min_le_right _ _⟩)

/-- C9: a single stream-mode `sptps_receive_data` call dispatches at
most one record; when it does, the reassembly buffer is reset and the
call returns the bytes consumed so far without touching the rest of the
input, so later records in the same caller buffer need further calls.
The concrete conjunct shows an input holding two complete records of
which only the first is processed (4 of 8 bytes consumed, one
delivery). -/
theorem C9_one_record_per_call :
    (∀ (dec : Nat → List Nat → Option (List Nat)) (hs : HSHandler)
        (s : StreamState) (input : List Nat) (c : Nat) (s1 : StreamState)
        (ds : List (Nat × List Nat)),
      sptps_receive_data dec hs s input = some (c, s1, ds) →
      ds.length ≤ 1 ∧ (ds ≠ [] → s1.buf = []) ∧ c ≤ input.length) ∧
    sptps_receive_data noDec echoHS ⟨1, false, 0, 0, []⟩
        [1, 0, 128, 9, 1, 0, 128, 8] =
      some (4, ⟨1, false, 1, 1, []⟩, [(SPTPS_HANDSHAKE, [9])]) := by
  constructor
  · intro dec hs s input c s1 ds h
    simp only [sptps_receive_data] at h
    split at h
    · exact Option.noConfusion h
    · split at h
      case isFalse => exact streamPhase2_shape dec hs s input c s1 ds h
      case isTrue =>
        repeat' split at h
        all_goals try exact Option.noConfusion h
        all_goals try
          (simp only [Option.some.injEq, Prod.mk.injEq] at h
           obtain ⟨hc, hs1, hds⟩ := h
           subst hc
           subst hs1
           subst hds
           exact ⟨by simp, by simp, Nat.min_le_right _ _⟩)
        all_goals
          (rename_i hph
           simp only [Option.some.injEq, Prod.mk.injEq] at h
           obtain ⟨hc, hs1, hds⟩ := h
           subst hc
           subst hs1
           subst hds
           obtain ⟨hd1, hd2, hd3⟩ := streamPhase2_shape _ _ _ _ _ _ _ hph
           refine ⟨hd1, hd2, ?_⟩
           simp only [List.length_drop] at hd3
           have h1 := Nat.min_le_right (2 - s.buf.length) input.length
           omega)
  · decide

/-- Witness for C9's quantified part at the concrete two-record input:
the first call delivers one record, resets the buffer, and consumes
only 4 of the 8 input bytes. -/
theorem C9_one_record_per_call_witness :
    ([(SPTPS_HANDSHAKE, [9])] : List (Nat × List Nat)).length ≤ 1 ∧
    (([(SPTPS_HANDSHAKE, [9])] : List (Nat × List Nat)) ≠ [] →
      (⟨1, false, 1, 1, []⟩ : StreamState).buf = []) ∧
    4 ≤ ([1, 0, 128, 9, 1, 0, 128, 8] : List Nat).length :=
  C9_one_record_per_call.1 noDec echoHS ⟨1, false, 0, 0, []⟩
    [1, 0, 128, 9, 1, 0, 128, 8] 4 ⟨1, false, 1, 1, []⟩
    [(SPTPS_HANDSHAKE, [9])] C9_one_record_per_call.2

theorem send_record_priv_length (enc : Nat → List Nat → List Nat)
    (henclen : ∀ q m, (enc q m).length = m.length + 16) (q t : Nat)
    (d : List Nat) :
    (send_record_priv enc q t d).length = d.length + 19 := by
  simp [send_record_priv, henclen]

theorem frame_parse (enc : Nat → List Nat → List Nat) (q t : Nat)
    (d : List Nat) (hd : d.length < 65536) :
    (send_record_priv enc q t d).getD 0 0 +
      256 * (send_record_priv enc q t d).getD 1 0 = d.length := by
  simp [send_record_priv]
  omega

theorem frame_drop_two (enc : Nat → List Nat → List Nat) (q t : Nat)
    (d : List Nat) :
    (send_record_priv enc q t d).drop 2 = enc q ([t] ++ d) := rfl

theorem frame_take_two (enc : Nat → List Nat → List Nat) (q t : Nat)
    (d : List Nat) :
    (send_record_priv enc q t d).take 2 =
      [d.length % 256, d.length / 256 % 256] := rfl

/-- Taking `n` more bytes of a prefix of the remaining stream stays
inside the current frame while `n` is at most what the frame has left. -/
theorem prefix_take_frame (f S c : List Nat) (j n : Nat)
    (hpre : c = (f.drop j ++ S).take c.length)
    (hn : n ≤ c.length) (hnf : n ≤ f.length - j) :
    f.take j ++ c.take n = f.take (j + n) := by
  have h1 : c.take n = ((f.drop j ++ S).take c.length).take n := by
    rw [← hpre]
  rw [List.take_take, Nat.min_eq_left hn] at h1
  rw [List.take_append_of_le_length (by simp; omega)] at h1
  rw [h1, ← List.take_add]

theorem prefix_drop_stream (f S c : List Nat) (j n : Nat)
    (hpre : c = (f.drop j ++ S).take c.length)
    (hnf : n ≤ f.length - j) :
    c.drop n = ((f.drop (j + n) ++ S).take (c.length - n)) := by
  conv_lhs => rw [hpre]
  rw [List.drop_take, List.drop_append_of_le_length (by simp; omega)]
  rw [List.drop_drop]

theorem phase2_run (dec : Nat → List Nat → Option (List Nat))
    (hs : HSHandler) (enc : Nat → List Nat → List Nat)
    (henclen : ∀ q m, (enc q m).length = m.length + 16)
    (hdec : ∀ q m, dec q (enc q m) = some m)
    (hst q t : Nat) (d : List Nat) (S c : List Nat) (j : Nat)
    (ht : t < 128) (hd : d.length < 65536)
    (hj2 : 2 ≤ j) (hj : j < d.length + 19)
    (hpre : c = ((send_record_priv enc q t d).drop j ++ S).take c.length) :
    streamPhase2 dec hs ⟨hst, true, q, d.length, (send_record_priv enc q t d).take j⟩ c =
      (if d.length + 19 - j ≤ c.length then
        some (d.length + 19 - j, ⟨hst, true, u32 (q + 1), d.length, []⟩,
          [(t, d)])
      else
        some (c.length,
          ⟨hst, true, q, d.length, (send_record_priv enc q t d).take (j + c.length)⟩,
          [])) := by
  have hflen := send_record_priv_length enc henclen q t d
  have hbuflen : ((send_record_priv enc q t d).take j).length = j := by
    rw [List.length_take]
    omega
  simp only [streamPhase2, if_true, SPTPS_OVERHEAD, hbuflen]
  by_cases hcase : d.length + 19 - j ≤ c.length
  · rw [if_pos hcase]
    have htr : min (d.length + 19 - j) c.length = d.length + 19 - j :=
      Nat.min_eq_left hcase
    rw [htr]
    have hbuf : (send_record_priv enc q t d).take j ++
        c.take (d.length + 19 - j) = send_record_priv enc q t d := by
      rw [prefix_take_frame _ S c j _ hpre hcase (by omega)]
      have : j + (d.length + 19 - j) = (send_record_priv enc q t d).length := by
        omega
      rw [this, List.take_length]
    rw [hbuf]
    rw [if_neg (by omega)]
    rw [frame_drop_two, hdec q ([t] ++ d)]
    have hdisp : dispatchRecord hs
        ⟨hst, true, u32 (q + 1), d.length, send_record_priv enc q t d⟩
        ([t] ++ d) d.length =
        some (⟨hst, true, u32 (q + 1), d.length, []⟩, [(t, d)]) := by
      simp only [dispatchRecord]
      rw [if_pos (by simpa using ht)]
      simp [List.take_of_length_le]
    simp only [hdisp]
  · rw [if_neg hcase]
    have htr : min (d.length + 19 - j) c.length = c.length :=
      Nat.min_eq_right (by omega)
    rw [htr]
    have hbuf : (send_record_priv enc q t d).take j ++ c.take c.length =
        (send_record_priv enc q t d).take (j + c.length) := by
      exact prefix_take_frame _ S c j _ hpre (Nat.le_refl _) (by omega)
    rw [hbuf]
    rw [if_pos (by rw [List.length_take]; omega)]

theorem midState_frame_ge2 (enc : Nat → List Nat → List Nat) (q t : Nat)
    (d : List Nat) (hd : d.length < 65536) (hst stale j : Nat)
    (hj2 : 2 ≤ j) :
    midState hst q stale (send_record_priv enc q t d) j =
      ⟨hst, true, q, d.length, (send_record_priv enc q t d).take j⟩ := by
  simp only [midState, if_neg (show ¬j < 2 by omega)]
  rw [frame_parse enc q t d hd]

/-- One `sptps_receive_data` call from `j` bytes into the current frame:
if the input completes the frame, exactly the frame's remaining bytes
are consumed and the record is delivered with the buffer reset and the
sequence counter bumped, and otherwise the full input is absorbed into
the buffer. -/
theorem receive_run (dec : Nat → List Nat → Option (List Nat))
    (hs : HSHandler) (enc : Nat → List Nat → List Nat)
    (henclen : ∀ q m, (enc q m).length = m.length + 16)
    (hdec : ∀ q m, dec q (enc q m) = some m)
    (hst q stale t : Nat) (d S c : List Nat) (j : Nat)
    (hhst : hst ≠ 0) (ht : t < 128) (hd : d.length < 65536)
    (hj : j < d.length + 19) (hc : c ≠ [])
    (hpre : c = ((send_record_priv enc q t d).drop j ++ S).take c.length) :
    sptps_receive_data dec hs
        (midState hst q stale (send_record_priv enc q t d) j) c =
      (if d.length + 19 - j ≤ c.length then
        some (d.length + 19 - j, ⟨hst, true, u32 (q + 1), d.length, []⟩,
          [(t, d)])
      else
        some (c.length,
          midState hst q stale (send_record_priv enc q t d) (j + c.length),
          [])) := by
  have hflen := send_record_priv_length enc henclen q t d
  have hclen : 1 ≤ c.length := List.length_pos.mpr hc
  by_cases hj2 : j < 2
  · -- the length bytes are not all in yet
    have hbuflen : ((send_record_priv enc q t d).take j).length = j := by
      rw [List.length_take]
      omega
    simp only [sptps_receive_data, midState, if_pos hj2, hbuflen,
      if_neg hhst]
    by_cases hsmall : j + c.length < 2
    · -- still not enough for the length bytes
      have htr : min (2 - j) c.length = c.length := Nat.min_eq_right (by omega)
      rw [htr,
        prefix_take_frame _ S c j c.length hpre (Nat.le_refl _) (by omega)]
      rw [if_pos (by rw [List.length_take]; omega)]
      rw [if_neg (show ¬d.length + 19 - j ≤ c.length by omega)]
      simp only [midState, if_pos hj2, if_pos hsmall]
    · -- the length bytes complete now
      have htr : min (2 - j) c.length = 2 - j := Nat.min_eq_left (by omega)
      have hj2e : j + (2 - j) = 2 := by omega
      have hbuf := prefix_take_frame (send_record_priv enc q t d) S c j
        (2 - j) hpre (by omega) (by omega)
      rw [hj2e] at hbuf
      rw [htr, hbuf]
      rw [if_neg (by rw [List.length_take]; omega)]
      have hparse : ((send_record_priv enc q t d).take 2).getD 0 0 +
          256 * ((send_record_priv enc q t d).take 2).getD 1 0 = d.length := by
        rw [frame_take_two]
        simp only [List.getD_cons_zero, List.getD_cons_succ]
        omega
      have hrestlen : (c.drop (2 - j)).length = c.length - (2 - j) := by
        simp
      by_cases hrest0 : (c.drop (2 - j)).length = 0
      · -- nothing after the length bytes: exit early
        rw [if_pos hrest0]
        have hceq : c.length = 2 - j := by omega
        rw [if_neg (show ¬d.length + 19 - j ≤ c.length by omega)]
        have hje : j + c.length = 2 := by omega
        rw [hje]
        simp only [midState, if_neg (show ¬(2:Nat) < 2 by omega), hparse,
          hceq]
        rw [frame_parse enc q t d hd]
      · -- run the record phase on the remainder
        rw [if_neg hrest0]
        have hrpre : c.drop (2 - j) =
            ((send_record_priv enc q t d).drop 2 ++ S).take
              (c.drop (2 - j)).length := by
          rw [hrestlen]
          have := prefix_drop_stream (send_record_priv enc q t d) S c j
            (2 - j) hpre (by omega)
          rw [hj2e] at this
          exact this
        have hph := phase2_run dec hs enc henclen hdec hst q t d S
          (c.drop (2 - j)) 2 ht hd (Nat.le_refl 2) (by omega) hrpre
        rw [hparse, hph]
        by_cases hfull : d.length + 19 - 2 ≤ (c.drop (2 - j)).length
        · have harith : 2 - j + (d.length + 19 - 2) = d.length + 19 - j := by
            omega
          rw [if_pos hfull,
            if_pos (show d.length + 19 - j ≤ c.length by omega), ← harith]
        · have hidx : 2 + (c.drop (2 - j)).length = j + c.length := by omega
          have harith : 2 - j + (c.drop (2 - j)).length = c.length := by omega
          rw [if_neg hfull,
            if_neg (show ¬d.length + 19 - j ≤ c.length by omega),
            if_neg hsmall, frame_parse enc q t d hd, ← hidx, ← harith]
  · -- already past the length bytes: record phase immediately
    have hbuflen : ((send_record_priv enc q t d).take j).length = j := by
      rw [List.length_take]
      omega
    rw [midState_frame_ge2 enc q t d hd hst stale j (by omega)]
    simp only [sptps_receive_data, if_neg hhst]
    rw [if_neg (by simp only [hbuflen]; omega)]
    rw [phase2_run dec hs enc henclen hdec hst q t d S c j ht hd
      (by omega) hj hpre]
    by_cases hfull : d.length + 19 - j ≤ c.length
    · rw [if_pos hfull, if_pos hfull]
    · rw [if_neg hfull, if_neg hfull]
      rw [midState_frame_ge2 enc q t d hd hst stale (j + c.length)
        (by omega)]

theorem drop_append_ge (l1 l2 : List Nat) (n : Nat) (h : l1.length ≤ n) :
    (l1 ++ l2).drop n = l2.drop (n - l1.length) := by
  conv_lhs => rw [show n = l1.length + (n - l1.length) by omega]
  rw [List.drop_append]

theorem cfgState_zero (hst stale : Nat) (enc : Nat → List Nat → List Nat)
    (q : Nat) (pending : List (Nat × List Nat)) :
    cfgState hst stale enc q pending 0 = ⟨hst, true, q, stale, []⟩ := by
  cases pending with
  | nil => rfl
  | cons r rs =>
    obtain ⟨t, d⟩ := r
    simp [cfgState, midState]

theorem cfgStream_zero (enc : Nat → List Nat → List Nat) (q : Nat)
    (pending : List (Nat × List Nat)) :
    cfgStream enc q pending 0 = sendFrames enc q pending := by
  cases pending with
  | nil => rfl
  | cons r rs =>
    obtain ⟨t, d⟩ := r
    simp [cfgStream, sendFrames]

/-- Pumping one chunk through repeated `sptps_receive_data` calls
advances the configuration by exactly the chunk's length: the records
whose frames complete within the chunk are delivered in order, and the
receiver ends mid-frame wherever the chunk ends. -/
theorem feedChunkF_advance (dec : Nat → List Nat → Option (List Nat))
    (hs : HSHandler) (enc : Nat → List Nat → List Nat)
    (henclen : ∀ q m, (enc q m).length = m.length + 16)
    (hdec : ∀ q m, dec q (enc q m) = some m)
    (hst : Nat) (hhst : hst ≠ 0) :
    ∀ (fuel : Nat) (c : List Nat) (pending : List (Nat × List Nat))
      (j q stale : Nat),
      c.length ≤ fuel →
      (∀ r ∈ pending, r.1 < 128 ∧ r.2.length < 65536) →
      (pending = [] ∨ j < headFrameLen pending) →
      c = (cfgStream enc q pending j).take c.length →
      ∃ (q2 stale2 : Nat) (pending2 : List (Nat × List Nat)) (j2 : Nat)
        (ds : List (Nat × List Nat)),
        feedChunkF dec hs fuel (cfgState hst stale enc q pending j) c =
          some (cfgState hst stale2 enc q2 pending2 j2, ds) ∧
        pending = ds ++ pending2 ∧
        cfgStream enc q2 pending2 j2 =
          (cfgStream enc q pending j).drop c.length ∧
        (pending2 = [] ∨ j2 < headFrameLen pending2) := by
  intro fuel
  induction fuel with
  | zero =>
    intro c pending j q stale hlen hval hjinv hpre
    have hc : c = [] := List.length_eq_zero.mp (by omega)
    subst hc
    exact ⟨q, stale, pending, j, [], rfl, rfl, by simp, hjinv⟩
  | succ fuel ih =>
    intro c pending j q stale hlen hval hjinv hpre
    by_cases hc : c = []
    · subst hc
      exact ⟨q, stale, pending, j, [], rfl, rfl, by simp, hjinv⟩
    · have hpne : pending ≠ [] := by
        intro he
        subst he
        simp [cfgStream] at hpre
        exact hc hpre
      obtain ⟨r, rs, hpend⟩ := List.exists_cons_of_ne_nil hpne
      obtain ⟨t, d⟩ := r
      subst hpend
      have hjlt : j < d.length + 19 := by
        rcases hjinv with h | h
        · exact absurd h (by simp)
        · simpa [headFrameLen] using h
      obtain ⟨ht, hd⟩ := hval (t, d) (List.mem_cons_self _ _)
      have hclen : 1 ≤ c.length := List.length_pos.mpr hc
      simp only [cfgStream] at hpre
      have hrun := receive_run dec hs enc henclen hdec hst q stale t d
        (sendFrames enc (u32 (q + 1)) rs) c j hhst ht hd hjlt hc hpre
      obtain ⟨x, xs, hcons⟩ := List.exists_cons_of_ne_nil hc
      have hflen := send_record_priv_length enc henclen q t d
      by_cases hfull : d.length + 19 - j ≤ c.length
      · -- the head record completes within this chunk
        rw [if_pos hfull] at hrun
        have hn1 : 1 ≤ d.length + 19 - j := by omega
        have hdroppre : c.drop (d.length + 19 - j) =
            (cfgStream enc (u32 (q + 1)) rs 0).take
              (c.drop (d.length + 19 - j)).length := by
          rw [cfgStream_zero]
          have := prefix_drop_stream (send_record_priv enc q t d)
            (sendFrames enc (u32 (q + 1)) rs) c j (d.length + 19 - j) hpre
            (by omega)
          rw [List.length_drop]
          have hde : (send_record_priv enc q t d).drop
              (j + (d.length + 19 - j)) = [] := by
            apply List.drop_eq_nil_of_le
            omega
          rw [hde, List.nil_append] at this
          exact this
        obtain ⟨q2, stale2, pending2, j2, ds2, hfeed, hsplit, hstream,
          hjinv2⟩ := ih (c.drop (d.length + 19 - j)) rs 0 (u32 (q + 1))
          d.length (by simp; omega)
          (fun r hr => hval r (List.mem_cons_of_mem _ hr))
          (by
            cases rs with
            | nil => exact Or.inl rfl
            | cons r2 rs2 =>
              obtain ⟨t2, d2⟩ := r2
              exact Or.inr (by simp [headFrameLen]))
          hdroppre
        refine ⟨q2, stale2, pending2, j2, (t, d) :: ds2, ?_, ?_, ?_, hjinv2⟩
        · rw [hcons]
          simp only [feedChunkF]
          rw [← hcons]
          simp only [cfgState]
          simp only [hrun]
          rw [if_neg (by omega : ¬d.length + 19 - j = 0)]
          rw [show (⟨hst, true, u32 (q + 1), d.length, []⟩ : StreamState) =
            cfgState hst d.length enc (u32 (q + 1)) rs 0 from
            (cfgState_zero hst d.length enc (u32 (q + 1)) rs).symm]
          simp only [hfeed]
          rfl
        · simpa using hsplit
        · rw [hstream, cfgStream_zero, List.length_drop]
          simp only [cfgStream]
          rw [drop_append_ge _ _ c.length (by simp [List.length_drop]; omega)]
          congr 1
          simp only [List.length_drop, hflen]
      · -- the whole chunk is absorbed mid-frame
        rw [if_neg hfull] at hrun
        refine ⟨q, stale, (t, d) :: rs, j + c.length, [], ?_, rfl, ?_, ?_⟩
        · rw [hcons]
          simp only [feedChunkF]
          rw [← hcons]
          simp only [cfgState]
          simp only [hrun]
          rw [if_neg (by omega : ¬c.length = 0)]
          rw [List.drop_of_length_le (Nat.le_refl _)]
          simp only [feedChunkF]
          rfl
        · simp only [cfgStream, List.length_drop]
          rw [List.drop_append_of_le_length (by simp; omega)]
          rw [List.drop_drop]
        · exact Or.inr (by simp [headFrameLen]; omega)

theorem feedChunks_advance (dec : Nat → List Nat → Option (List Nat))
    (hs : HSHandler) (enc : Nat → List Nat → List Nat)
    (henclen : ∀ q m, (enc q m).length = m.length + 16)
    (hdec : ∀ q m, dec q (enc q m) = some m)
    (hst : Nat) (hhst : hst ≠ 0) :
    ∀ (chunks : List (List Nat)) (pending : List (Nat × List Nat))
      (j q stale : Nat),
      (∀ r ∈ pending, r.1 < 128 ∧ r.2.length < 65536) →
      (pending = [] ∨ j < headFrameLen pending) →
      chunks.flatten = cfgStream enc q pending j →
      ∃ s2 : StreamState,
        feedChunks dec hs (cfgState hst stale enc q pending j) chunks =
          some (s2, pending) := by
  intro chunks
  induction chunks with
  | nil =>
    intro pending j q stale hval hjinv hflat
    cases pending with
    | nil => exact ⟨cfgState hst stale enc q [] j, rfl⟩
    | cons r rs =>
      obtain ⟨t, d⟩ := r
      exfalso
      have hjlt : j < d.length + 19 := by
        rcases hjinv with h | h
        · exact absurd h (by simp)
        · simpa [headFrameLen] using h
      have hlen := congrArg List.length hflat
      simp [cfgStream, List.length_drop,
        send_record_priv_length enc henclen] at hlen
      omega
  | cons ch cs ih =>
    intro pending j q stale hval hjinv hflat
    have hch : ch = (cfgStream enc q pending j).take ch.length := by
      rw [← hflat, List.flatten_cons]
      exact (List.take_left ch cs.flatten).symm
    obtain ⟨q2, stale2, pending2, j2, ds, hfeed, hsplit, hstream, hjinv2⟩ :=
      feedChunkF_advance dec hs enc henclen hdec hst hhst ch.length ch
        pending j q stale (Nat.le_refl _) hval hjinv hch
    have hflat2 : cs.flatten = cfgStream enc q2 pending2 j2 := by
      rw [hstream, ← hflat, List.flatten_cons, List.drop_left]
    have hval2 : ∀ r ∈ pending2, r.1 < 128 ∧ r.2.length < 65536 :=
      fun r hr => hval r (by rw [hsplit]; exact List.mem_append_right _ hr)
    obtain ⟨s2, hrest⟩ := ih pending2 j2 q2 stale2 hval2 hjinv2 hflat2
    refine ⟨s2, ?_⟩
    simp only [feedChunks, feedChunk]
    simp only [hfeed, hrest]
    rw [← hsplit]

/-- C3: stream-mode round trip.  For a sender whose `outstate` is set,
every sequence of `sptps_send_record` calls with application types
(< 128) and 16-bit payload lengths produces frames whose concatenation,
fed to the peer's `sptps_receive_data` in any chunking (calling again
with the unconsumed tail), yields exactly the same records, in order,
with identical type and payload — for any cipher pair where decryption
inverts encryption and encryption adds the 16-byte tag. -/
theorem C3_stream_roundtrip (enc : Nat → List Nat → List Nat)
    (dec : Nat → List Nat → Option (List Nat)) (hs : HSHandler)
    (hst stale seq0 : Nat) (hhst : hst ≠ 0)
    (henclen : ∀ q m, (enc q m).length = m.length + 16)
    (hdec : ∀ q m, dec q (enc q m) = some m)
    (rs : List (Nat × List Nat))
    (hvalid : ∀ r ∈ rs, r.1 < 128 ∧ r.2.length < 65536)
    (chunks : List (List Nat))
    (hjoin : chunks.flatten = sendFrames enc seq0 rs) :
    (feedChunks dec hs ⟨hst, true, seq0, stale, []⟩ chunks).map Prod.snd =
      some rs := by
  have h0 : (⟨hst, true, seq0, stale, []⟩ : StreamState) =
      cfgState hst stale enc seq0 rs 0 :=
    (cfgState_zero hst stale enc seq0 rs).symm
  have hflat : chunks.flatten = cfgStream enc seq0 rs 0 := by
    rw [hjoin, cfgStream_zero]
  have hjinv : rs = [] ∨ 0 < headFrameLen rs := by
    cases rs with
    | nil => exact Or.inl rfl
    | cons r rs2 =>
      obtain ⟨t, d⟩ := r
      exact Or.inr (by simp [headFrameLen])
  obtain ⟨s2, hfeed⟩ := feedChunks_advance dec hs enc henclen hdec hst hhst
    chunks rs 0 seq0 stale hvalid hjinv hflat
  rw [h0, hfeed]
  rfl

/-- Witness for C3 at concrete inputs: two records, sent from seqno 0,
fed in two chunks split mid-frame at byte 7. -/
theorem C3_stream_roundtrip_witness :
    (feedChunks padDec echoHS ⟨1, true, 0, 0, []⟩
        [(sendFrames padEnc 0 c3recs).take 7,
         (sendFrames padEnc 0 c3recs).drop 7]).map Prod.snd =
      some c3recs := by
  apply C3_stream_roundtrip padEnc padDec echoHS 1 0 0 (by decide)
  · intro q m
    simp [padEnc]
  · intro q m
    simp only [padDec, padEnc, List.length_append, List.length_replicate,
      Nat.add_sub_cancel]
    rw [List.take_left]
  · decide
  · simp [List.take_append_drop]

/-- C7: in datagram mode after inbound keying, a packet whose AEAD
decryption fails is rejected with no change whatsoever to the session:
decryption runs before the replay check, so `inseqno`, the late bitmap,
`farfuture` and `received` are untouched and nothing is delivered. -/
theorem C7_decrypt_failure_unchanged
    (dec : Nat → List Nat → Option (List Nat)) (hs : DgramHS)
    (s : DgramState) (data : List Nat) (hin : s.instate = true)
    (hlen : 21 ≤ data.length)
    (hdec : dec (le32 data) (data.drop 4) = none) :
    sptps_receive_data_datagram dec hs s data = (false, s, []) := by
  simp only [sptps_receive_data_datagram, hin, hdec]
  rw [if_neg (by simp; omega), if_neg (by simp)]

/-- Witness for C7 at a concrete input: a 21-byte packet whose
decryption fails leaves the keyed session exactly as it was. -/
theorem C7_decrypt_failure_unchanged_witness :
    sptps_receive_data_datagram noDec dgEcho ⟨true, replayInit 16⟩
      (List.replicate 21 7) = (false, ⟨true, replayInit 16⟩, []) :=
  C7_decrypt_failure_unchanged noDec dgEcho ⟨true, replayInit 16⟩
    (List.replicate 21 7) rfl (by decide) rfl

/-- `(data.drop n).getD 0 0` reads byte `n`. -/
theorem getD_drop (l : List Nat) (n : Nat) :
    (l.drop n).getD 0 0 = l.getD n 0 := by
  simp [List.getD_eq_getElem?_getD, List.getElem?_drop]

/-- C10: before inbound keying, a datagram is accepted only when its
little-endian seqno equals `inseqno` exactly and its record-type byte
is `SPTPS_HANDSHAKE` (128); a long-enough packet failing either test is
rejected with an error, and the pre-keying path never delivers an
application record. -/
theorem C10_handshake_gate (dec : Nat → List Nat → Option (List Nat))
    (hs : DgramHS) (s : DgramState) (data : List Nat)
    (hin : s.instate = false) :
    ((sptps_receive_data_datagram dec hs s data).1 = true →
      5 ≤ data.length ∧ le32 data = s.replay.inseqno ∧
        data.getD 4 0 = SPTPS_HANDSHAKE) ∧
    (5 ≤ data.length →
      le32 data ≠ s.replay.inseqno ∨ data.getD 4 0 ≠ SPTPS_HANDSHAKE →
      (sptps_receive_data_datagram dec hs s data).1 = false) ∧
    (sptps_receive_data_datagram dec hs s data).2.2 = [] := by
  simp only [sptps_receive_data_datagram, hin, if_true, Bool.false_eq_true,
    if_false]
  rw [getD_drop data 4]
  by_cases hl : data.length < 5
  · rw [if_pos hl]
    exact ⟨fun h => absurd h (by simp), fun h5 _ => absurd hl (by omega), rfl⟩
  · rw [if_neg hl]
    by_cases hq : le32 data = s.replay.inseqno
    · rw [if_neg (show ¬(le32 data ≠ s.replay.inseqno) from fun hne => hne hq)]
      by_cases ht : data.getD 4 0 = SPTPS_HANDSHAKE
      · rw [if_neg (show ¬(data.getD 4 0 ≠ SPTPS_HANDSHAKE) from
          fun hne => hne ht)]
        exact ⟨fun _ => ⟨by omega, hq, ht⟩,
          fun _ hor => hor.elim (fun h => absurd hq h) (fun h => absurd ht h),
          rfl⟩
      · rw [if_pos ht]
        exact ⟨fun h => absurd h (by simp), fun _ _ => rfl, rfl⟩
    · rw [if_pos hq]
      exact ⟨fun h => absurd h (by simp), fun _ _ => rfl, rfl⟩

/-- Witness for C10 at a concrete input: with `inseqno = 0`, a packet
carrying seqno 1 is rejected before keying. -/
theorem C10_handshake_gate_witness :
    (sptps_receive_data_datagram noDec dgEcho ⟨false, replayInit 16⟩
        [1, 0, 0, 0, 128]).1 = false :=
  (C10_handshake_gate noDec dgEcho ⟨false, replayInit 16⟩
    [1, 0, 0, 0, 128] rfl).2.1 (by decide) (Or.inl (by decide))

/-- In every reachable session, the `key` buffer is allocated exactly
while the session awaits the peer's ACK. -/
theorem hreach_key_ack (t : HSession) (hr : HReach t) :
    t.key = true → t.state = HState.ack := by
  induction hr with
  | init i => intro hk; exact absurd hk (by simp [hsInit])
  | step s t hr hst ih =>
    cases hst with
    | recvKex h hk =>
      intro hkey
      have hc := ih hkey
      rw [h] at hc
      exact HState.noConfusion hc
    | recvKexSecondary h hm hk =>
      intro hkey
      have hc := ih hkey
      rw [h] at hc
      exact HState.noConfusion hc
    | recvSigOut h ho => intro _; rfl
    | recvSigFirst h ho => intro hkey; exact absurd hkey (by simp)
    | recvAck h => intro hkey; exact absurd hkey (by simp)
    | forceKex h ho hm =>
      intro hkey
      have hc := ih hkey
      rw [h] at hc
      exact HState.noConfusion hc

/-- C8 counterexample: a reachable session (second key exchange, SIG
received, ACK awaited) in which `instate` and `outstate` are both true
yet the `key` buffer is still allocated — `receive_sig` only frees
`mykex`/`hiskex`, and `key` is freed when the peer's ACK arrives. -/
theorem C8_counterexample :
    ∃ s : HSession, HReach s ∧ s.instate = true ∧ s.outstate = true ∧
      s.key = true := by
  refine ⟨⟨false, HState.ack, true, true, true, false, false⟩,
    ?_, rfl, rfl, rfl⟩
  have h0 : HReach (hsInit false) := HReach.init false
  have h1 : HReach ⟨false, HState.sig, false, false, false, true, true⟩ :=
    HReach.step _ _ h0 (HStep.recvKex (hsInit false) rfl rfl)
  have h2 : HReach
      ⟨false, HState.secondaryKex, true, true, false, false, false⟩ :=
    HReach.step _ _ h1 (HStep.recvSigFirst _ rfl rfl)
  have h3 : HReach ⟨false, HState.sig, true, true, false, true, true⟩ :=
    HReach.step _ _ h2 (HStep.recvKexSecondary _ rfl rfl rfl)
  exact HReach.step _ _ h3 (HStep.recvSigOut _ rfl rfl)

/-- C8 (amended): in every reachable session with both `instate` and
`outstate` set that is not awaiting the ACK of a key exchange
(`state ≠ SPTPS_ACK`), the `key` buffer has been released. -/
theorem C8_key_released (s : HSession) (h : HReach s)
    (_hi : s.instate = true) (_ho : s.outstate = true)
    (hs : s.state ≠ HState.ack) : s.key = false := by
  cases hk : s.key with
  | false => rfl
  | true => exact absurd (hreach_key_ack s h hk) hs

/-- Witness for C8 at a concrete reachable state: after the first
handshake completes (state `SPTPS_SECONDARY_KEX`, both flags set) the
key is released. -/
theorem C8_key_released_witness :
    HReach ⟨false, HState.secondaryKex, true, true, false, false, false⟩ ∧
    (⟨false, HState.secondaryKex, true, true, false, false,
      false⟩ : HSession).key = false := by
  have h1 : HReach ⟨false, HState.sig, false, false, false, true, true⟩ :=
    HReach.step _ _ (HReach.init false) (HStep.recvKex (hsInit false) rfl rfl)
  have h2 : HReach
      ⟨false, HState.secondaryKex, true, true, false, false, false⟩ :=
    HReach.step _ _ h1 (HStep.recvSigFirst _ rfl rfl)
  exact ⟨h2, C8_key_released _ h2 rfl rfl (by decide)⟩

end Sptps

